import Mathlib

/-!
Shallow embedding, in Lean 4, of the core of a server-side HTML composition
engine written in Python:

* app/system/tools/utils/common.py       — dot-path context lookup
  (get_dict_subattribute);
* app/system/utils/web_elements/htmllib.py — the element tree, the renderer,
  and the attribute encoder (escape_html_text, encode_attribute_key,
  encode_attribute_value, encode_tag_attributes, HTMLElement and its
  JSONData / Raw / Page variants, global_var / local_var);
* app/system/utils/web_elements/requirements.py — the requirement model
  (Resource, ScriptRequirement, StyleRequirement) and the resolver
  (PageResourceData);
* app/system/utils/web_elements/bases.py — the component composition protocol
  (HTMLData, BaseWidget, BaseWrapper, BaseContainer).

Python dictionaries are modelled as insertion-ordered association lists,
Python sets of requirement objects as lists without duplicate keys (the key
being the path, since all requirement classes hash and compare by path
alone).  Dynamic (untyped) Python values appearing in render contexts are
modelled by the inductive type PyVal.  The only callables the source ever
stores in templates are the closures produced by global_var / local_var
(and literal lambdas of the same shape), so callables are embedded as data
carrying the closure parameters (the global/local switch, the dot-path key
and the default).  Exceptions are modelled with Except.
-/

/-- Errors raised by the embedded Python code: AttributeError escaping from
get_dict_subattribute, HTMLStructuralError, HTMLAttributeEncodingError. -/
inductive PyErr where
  | attributeError : PyErr
  | structural : String → PyErr
  | attributeEncoding : String → PyErr

/-- Dynamic Python values stored in render contexts: None, bools, strings,
ints, lists and string-keyed dicts (as insertion-ordered assoc lists). -/
inductive PyVal where
  | vnone : PyVal
  | vbool : Bool → PyVal
  | vstr : String → PyVal
  | vint : Int → PyVal
  | vlist : List PyVal → PyVal
  | vdict : List (String × PyVal) → PyVal

/-- A render context (the Python CONTEXT type alias, a Dict from str to Any). -/
def Ctx : Type := List (String × PyVal)

/-- Models Python str.split with separator "." : splits at every dot, keeping
empty segments; on the empty string it yields one empty segment, exactly as
in Python. Auxiliary recursion over the remaining characters. -/
def pySplitDotAux : List Char → List Char → List String
  | acc, [] => [String.mk acc.reverse]
  | acc, '.' :: rest => String.mk acc.reverse :: pySplitDotAux [] rest
  | acc, c :: rest => pySplitDotAux (c :: acc) rest

/-- Models Python key.split with separator ".". -/
def pySplitDot (s : String) : List String := pySplitDotAux [] s.data

/-- Models Python dict.get with a default: first binding wins (a Python dict
never holds a duplicate key, so assoc lists representing dicts never do). -/
def pyDictGet : List (String × PyVal) → String → PyVal → PyVal
  | [], _, dflt => dflt
  | (k, v) :: rest, key, dflt => if k == key then v else pyDictGet rest key dflt

/-- Models the Python expression obj.get(key, dflt): succeeds on a dict and
raises AttributeError on any other value (str, int, list, ... have no .get
method). -/
def pyGetMethod (obj : PyVal) (key : String) (dflt : PyVal) : Except PyErr PyVal :=
  match obj with
  | .vdict d => .ok (pyDictGet d key dflt)
  | _ => .error .attributeError

/-- Embeds common.get_dict_subattribute: splits the key at dots, walks all
segments but the last with obj = obj.get(segment, default {}), then returns
obj.get(last, default).  Any .get call on a non-dict raises AttributeError,
which propagates to the caller. -/
def get_dict_subattribute (obj : PyVal) (key : String) (dflt : PyVal) : Except PyErr PyVal := do
  let key_list := pySplitDot key
  let o ← key_list.dropLast.foldlM (fun o k => pyGetMethod o k (PyVal.vdict [])) obj
  pyGetMethod o (key_list.getLastD "") dflt

/-- Specification-side path lookup (written from the spec wording, to be
compared with get_dict_subattribute): descend the nested mappings segment by
segment, returning none as soon as a segment is missing or a non-mapping is
about to be descended into. -/
def lookupPath : PyVal → List String → Option PyVal
  | v, [] => some v
  | .vdict d, k :: ks =>
      match pyDictGet d k .vnone, d.any (fun kv => kv.1 == k) with
      | v, true => lookupPath v ks
      | _, false => none
  | _, _ :: _ => none

/-- Safety predicate for a dot-path traversal: walking the given segments with
dict.get (missing segments defaulting to the empty dict) only ever meets
dicts, so the final .get call cannot raise. -/
def allDicts : PyVal → List String → Bool
  | .vdict _, [] => true
  | .vdict d, k :: ks => allDicts (pyDictGet d k (.vdict [])) ks
  | _, _ => false

-- STRING UTILITIES OF THE EMBEDDING ------------------------------------------

/-- Replaces every occurrence of the character c by the replacement list;
models Python str.replace for the single-character patterns used by the
source (escape_html_text and the JSON string escaper). -/
def replaceChar (c : Char) (rep : List Char) : List Char → List Char
  | [] => []
  | x :: rest => if x = c then rep ++ replaceChar c rep rest else x :: replaceChar c rep rest

/-- Embeds htmllib.escape_html_text: the characters amp, lt, gt, double quote
and single quote are substituted by their HTML entities, in the insertion
order of the Python dict of the source (amp first, so entities introduced by
the later passes are not re-escaped). -/
def escape_html_text (text : String) : String :=
  String.mk (replaceChar '\x27' "&#x27;".data
    (replaceChar '"' "&quot;".data
      (replaceChar '>' "&gt;".data
        (replaceChar '<' "&lt;".data
          (replaceChar '&' "&amp;".data text.data)))))

/-- Tests membership of the character c in the ASCII range a-z or 0-9, the
lookbehind character group of the regex in encode_attribute_key. -/
def isAsciiLowerOrDigit (c : Char) : Bool :=
  ('a' ≤ c && c ≤ 'z') || ('0' ≤ c && c ≤ '9')

/-- Tests membership of the character c in the ASCII range A-Z, the matched
group of the regex in encode_attribute_key. -/
def isAsciiUpper (c : Char) : Bool := 'A' ≤ c && c ≤ 'Z'

/-- Lower-cases one ASCII capital letter (explicit table), the replacement
performed by encode_attribute_key; any other character is unchanged. -/
def asciiUpperToLower (c : Char) : Char :=
  if c = 'A' then 'a' else if c = 'B' then 'b' else if c = 'C' then 'c'
  else if c = 'D' then 'd' else if c = 'E' then 'e' else if c = 'F' then 'f'
  else if c = 'G' then 'g' else if c = 'H' then 'h' else if c = 'I' then 'i'
  else if c = 'J' then 'j' else if c = 'K' then 'k' else if c = 'L' then 'l'
  else if c = 'M' then 'm' else if c = 'N' then 'n' else if c = 'O' then 'o'
  else if c = 'P' then 'p' else if c = 'Q' then 'q' else if c = 'R' then 'r'
  else if c = 'S' then 's' else if c = 'T' then 't' else if c = 'U' then 'u'
  else if c = 'V' then 'v' else if c = 'W' then 'w' else if c = 'X' then 'x'
  else if c = 'Y' then 'y' else if c = 'Z' then 'z' else c

/-- Auxiliary scan of encode_attribute_key: the first argument is the
character preceding the current position in the original string (the regex
lookbehind inspects the original string, and single-character matches never
overlap). -/
def encodeKeyAux : Char → List Char → List Char
  | _, [] => []
  | prev, c :: rest =>
      if isAsciiLowerOrDigit prev && isAsciiUpper c then
        '-' :: asciiUpperToLower c :: encodeKeyAux c rest
      else
        c :: encodeKeyAux c rest

/-- Embeds htmllib.encode_attribute_key: re.sub with pattern
(?<=[a-z0-9])([A-Z]) replacing the matched capital by a hyphen followed by
its lower case.  The first character can never match (the lookbehind needs a
preceding character). -/
def encode_attribute_key (key : String) : String :=
  match key.data with
  | [] => ""
  | c :: rest => String.mk (c :: encodeKeyAux c rest)

/-- Drops leading whitespace characters from a character list. -/
def stripLeft : List Char → List Char
  | [] => []
  | c :: rest => if c.isWhitespace then stripLeft rest else c :: rest

/-- Models Python str.strip with no arguments: removes leading and trailing
whitespace.  (Python strips a slightly larger whitespace class than
Char.isWhitespace — form feed, vertical tab, ... — which no value of this
code base contains.) -/
def pyStrip (s : String) : String :=
  String.mk ((stripLeft (stripLeft s.data).reverse).reverse)

/-- Models Python sep.join over a list of fragments. -/
def joinSep (sep : String) : List String → String
  | [] => ""
  | [x] => x
  | x :: y :: rest => x ++ sep ++ joinSep sep (y :: rest)

/-- Maps a decimal digit value (0..9) to its character. -/
def digitChar10 (r : Nat) : Char :=
  if r = 0 then '0' else if r = 1 then '1' else if r = 2 then '2'
  else if r = 3 then '3' else if r = 4 then '4' else if r = 5 then '5'
  else if r = 6 then '6' else if r = 7 then '7' else if r = 8 then '8' else '9'

/-- Accumulates the decimal digits of n in front of acc; the first argument is
fuel, always called with fuel greater than the number of digits. -/
def natDigitsAux : Nat → Nat → List Char → List Char
  | 0, _, acc => acc
  | fuel + 1, n, acc =>
      if n < 10 then digitChar10 n :: acc
      else natDigitsAux fuel (n / 10) (digitChar10 (n % 10) :: acc)

/-- Models Python str applied to an int: usual decimal notation, with a minus
sign for negatives. -/
def pyIntRepr : Int → String
  | .ofNat m => String.mk (natDigitsAux (m + 1) m [])
  | .negSucc m => String.mk ('-' :: natDigitsAux (m + 2) (m + 1) [])

/-- Tests whether a string contains a newline character. -/
def hasNl (s : String) : Bool := s.data.any (fun c => c = '\n')

/-- A run of n space characters, models " " * n. -/
def spacesStr (n : Nat) : String := String.mk (List.replicate n ' ')

/-- Auxiliary splitter for splitlinesKeepends: acc holds the reversed current
line; line breaks recognised are the newline, the carriage return and the
CRLF pair, each kept at the end of its line. -/
def splitlinesAux : List Char → List Char → List (List Char)
  | acc, [] => if acc.isEmpty then [] else [acc.reverse]
  | acc, '\r' :: '\n' :: rest => (acc.reverse ++ ['\r', '\n']) :: splitlinesAux [] rest
  | acc, '\n' :: rest => (acc.reverse ++ ['\n']) :: splitlinesAux [] rest
  | acc, '\r' :: rest => (acc.reverse ++ ['\r']) :: splitlinesAux [] rest
  | acc, c :: rest => splitlinesAux (c :: acc) rest

/-- Models Python str.splitlines with keepends set: the empty string yields no
lines at all, and a final line without a terminator is still produced.
(Python recognises a few exotic break characters beyond newline, carriage
return and CRLF; none occurs in this code base.) -/
def splitlinesKeepends (s : String) : List String :=
  (splitlinesAux [] s.data).map String.mk

/-- The per-line indentation loop of htmllib._render_item: every line of the
string, line breaks kept, is prefixed with n spaces. -/
def indentLines (n : Nat) (s : String) : String :=
  String.join ((splitlinesKeepends s).map (fun line => spacesStr n ++ line))

/-- The string branch of htmllib._render_item: a whitespace-sensitive render
copies the string verbatim, otherwise every line is prefixed with the indent. -/
def renderStringItem (s : String) (indent : Nat) (ws : Bool) : String :=
  if ws then s else indentLines indent s

-- PYTHON STR / REPR / JSON DUMPS ---------------------------------------------

/-- Escapes a string for Python repr quoting: backslash, newline, carriage
return, tab and the single quote.  (Python repr additionally switches the
quoting character when convenient; nothing in this code base reprs such a
string, so the single-quote form is used throughout.) -/
def reprEscape (s : String) : String :=
  String.mk (replaceChar '\x27' ['\\', '\x27']
    (replaceChar '\t' ['\\', 't']
      (replaceChar '\r' ['\\', 'r']
        (replaceChar '\n' ['\\', 'n']
          (replaceChar '\\' ['\\', '\\'] s.data)))))

mutual

/-- Models Python repr on the PyVal universe: lists and dicts display their
items by repr, strings are single-quoted and escaped. -/
def pyRepr : PyVal → String
  | .vnone => "None"
  | .vbool b => if b then "True" else "False"
  | .vstr s => "\x27" ++ reprEscape s ++ "\x27"
  | .vint n => pyIntRepr n
  | .vlist xs => "[" ++ joinSep ", " (pyReprList xs) ++ "]"
  | .vdict kvs => "\x7b" ++ joinSep ", " (pyReprDict kvs) ++ "\x7d"

/-- Reprs of the items of a list value. -/
def pyReprList : List PyVal → List String
  | [] => []
  | x :: xs => pyRepr x :: pyReprList xs

/-- Reprs of the entries of a dict value, each shown as key: value. -/
def pyReprDict : List (String × PyVal) → List String
  | [] => []
  | (k, v) :: xs => ("\x27" ++ reprEscape k ++ "\x27" ++ ": " ++ pyRepr v) :: pyReprDict xs

end

/-- Models Python str on the PyVal universe: identity on strings, True/False
on bools, decimal on ints, None, and repr-style display of lists and dicts. -/
def pyStr : PyVal → String
  | .vstr s => s
  | .vbool b => if b then "True" else "False"
  | .vint n => pyIntRepr n
  | .vnone => "None"
  | v => pyRepr v

/-- Escapes a string for a JSON string literal as json.dumps does: backslash,
double quote, newline, carriage return and tab. -/
def jsonEscapeStr (s : String) : String :=
  String.mk (replaceChar '\t' ['\\', 't']
    (replaceChar '\r' ['\\', 'r']
      (replaceChar '\n' ['\\', 'n']
        (replaceChar '"' ['\\', '"']
          (replaceChar '\\' ['\\', '\\'] s.data)))))

mutual

/-- Models json.dumps with default arguments on the PyVal universe (every
PyVal is JSON-serialisable, so no error can arise): item separator ", " and
key separator ": " as in the Python default. -/
def jsonDumps : PyVal → String
  | .vnone => "null"
  | .vbool b => if b then "true" else "false"
  | .vint n => pyIntRepr n
  | .vstr s => "\"" ++ jsonEscapeStr s ++ "\""
  | .vlist xs => "[" ++ joinSep ", " (jsonDumpsList xs) ++ "]"
  | .vdict kvs => "\x7b" ++ joinSep ", " (jsonDumpsDict kvs) ++ "\x7d"

/-- Dumps of the items of a JSON array. -/
def jsonDumpsList : List PyVal → List String
  | [] => []
  | x :: xs => jsonDumps x :: jsonDumpsList xs

/-- Dumps of the entries of a JSON object. -/
def jsonDumpsDict : List (String × PyVal) → List String
  | [] => []
  | (k, v) :: xs => ("\"" ++ jsonEscapeStr k ++ "\": " ++ jsonDumps v) :: jsonDumpsDict xs

end

-- ATTRIBUTE VALUES AND THE ATTRIBUTE ENCODER ---------------------------------

/-- Embeds the ATTRIBUTE_VALUE type alias of htmllib: a string, a bool, a
number (reaching the generic str branch of the encoder), a nested attribute
dict, a list, or a callable.  The only callables the source puts in
attribute dicts are the closures of global_var / local_var, embedded here as
the vvar constructor carrying the global/local switch, the dot-path key and
the default value. -/
inductive AttrValue where
  | vstr : String → AttrValue
  | vbool : Bool → AttrValue
  | vint : Int → AttrValue
  | vdict : List (String × AttrValue) → AttrValue
  | vlist : List AttrValue → AttrValue
  | vvar : Bool → String → PyVal → AttrValue

mutual

/-- Embeds htmllib.encode_attribute_value applied to a value returned by a
callable at render time: such a value lives in the PyVal universe (the
callable's declared return type excludes further callables).  The branches
mirror the source: dict and list values flatten recursively with the
concatenator and the index, True emits the bare key, False nothing, and any
other value is stringified, stripped, HTML-escaped and emitted as
key='value' only when non-empty.  Every branch is finally stripped, as the
source strips its return value. -/
def encodeAttrPy (key : String) (value : PyVal) (concatenator : String) : String :=
  match value with
  | .vdict items => pyStrip (joinSep " " (encodeAttrPyDict key items concatenator))
  | .vlist items => pyStrip (joinSep " " (encodeAttrPyList key 0 items concatenator))
  | .vbool b => if b then pyStrip key else ""
  | other =>
      let v := pyStrip (pyStr other)
      if v = "" then "" else pyStrip (key ++ "=\x27" ++ escape_html_text v ++ "\x27")

/-- Flattening of a resolved dict value: each subkey extends the key with the
concatenator. -/
def encodeAttrPyDict (key : String) (items : List (String × PyVal)) (concatenator : String) : List String :=
  match items with
  | [] => []
  | (sk, sv) :: rest =>
      encodeAttrPy (key ++ concatenator ++ sk) sv concatenator :: encodeAttrPyDict key rest concatenator

/-- Flattening of a resolved list value: each index extends the key with the
concatenator. -/
def encodeAttrPyList (key : String) (idx : Nat) (items : List PyVal) (concatenator : String) : List String :=
  match items with
  | [] => []
  | v :: rest =>
      encodeAttrPy (key ++ concatenator ++ pyIntRepr (Int.ofNat idx)) v concatenator
        :: encodeAttrPyList key (idx + 1) rest concatenator

end

mutual

/-- Embeds htmllib.encode_attribute_value on template attribute values.  The
callable branch resolves the global_var / local_var closure through
get_dict_subattribute (whose AttributeError propagates) and re-encodes the
resolved value; the other branches are those of the source, each stripped. -/
def encode_attribute_value (key : String) (value : AttrValue) (concatenator : String) (g l : Ctx) : Except PyErr String :=
  match value with
  | .vdict items => do
      let encoded_items ← encodeAttrValueDict key items concatenator g l
      pure (pyStrip (joinSep " " encoded_items))
  | .vlist items => do
      let encoded_items ← encodeAttrValueList key 0 items concatenator g l
      pure (pyStrip (joinSep " " encoded_items))
  | .vvar isGlobal ckey dflt => do
      let v ← get_dict_subattribute (.vdict (if isGlobal then g else l)) ckey dflt
      pure (encodeAttrPy key v concatenator)
  | .vbool b => pure (if b then pyStrip key else "")
  | .vstr s =>
      let v := pyStrip s
      pure (if v = "" then "" else pyStrip (key ++ "=\x27" ++ escape_html_text v ++ "\x27"))
  | .vint n =>
      let v := pyStrip (pyIntRepr n)
      pure (if v = "" then "" else pyStrip (key ++ "=\x27" ++ escape_html_text v ++ "\x27"))

/-- Flattening of a template dict value. -/
def encodeAttrValueDict (key : String) (items : List (String × AttrValue)) (concatenator : String) (g l : Ctx) : Except PyErr (List String) :=
  match items with
  | [] => pure []
  | (sk, sv) :: rest => do
      let e ← encode_attribute_value (key ++ concatenator ++ sk) sv concatenator g l
      let es ← encodeAttrValueDict key rest concatenator g l
      pure (e :: es)

/-- Flattening of a template list value. -/
def encodeAttrValueList (key : String) (idx : Nat) (items : List AttrValue) (concatenator : String) (g l : Ctx) : Except PyErr (List String) :=
  match items with
  | [] => pure []
  | v :: rest => do
      let e ← encode_attribute_value (key ++ concatenator ++ pyIntRepr (Int.ofNat idx)) v concatenator g l
      let es ← encodeAttrValueList key (idx + 1) rest concatenator g l
      pure (e :: es)

end

/-- Tests whether a string contains a hyphen. -/
def hasHyphen (s : String) : Bool := s.data.any (fun c => c = '-')

/-- Auxiliary loop of encode_tag_attributes over the attribute entries: each
top-level key is rejected if it contains a hyphen, encoded by
encode_attribute_key, optionally prefixed, optionally data- prefixed, then
its value is flattened; empty fragments are dropped. -/
def encodeTagAttrsAux (entries : List (String × AttrValue)) (pfx : String) (concatenator : String) (g l : Ctx) (is_data_attribute : Bool) : Except PyErr (List String) :=
  match entries with
  | [] => pure []
  | (key, value) :: rest =>
      if hasHyphen key then
        .error (.attributeEncoding "tag attribute name cannot containt hypens (-) characters")
      else do
        let key_string := encode_attribute_key key
        let key_string := if pfx ≠ "" then pfx ++ concatenator ++ key_string else key_string
        let key_string := if is_data_attribute then "data-" ++ key_string else key_string
        let formatted ← encode_attribute_value key_string value concatenator g l
        let formatted := pyStrip formatted
        let restFragments ← encodeTagAttrsAux rest pfx concatenator g l is_data_attribute
        pure (if formatted = "" then restFragments else formatted :: restFragments)

/-- Embeds htmllib.encode_tag_attributes: iterates the attribute dict in
insertion order and space-joins the non-empty fragments. -/
def encode_tag_attributes (data : List (String × AttrValue)) (pfx : String) (concatenator : String) (g l : Ctx) (is_data_attribute : Bool) : Except PyErr String := do
  let fragments ← encodeTagAttrsAux data pfx concatenator g l is_data_attribute
  pure (joinSep " " fragments)

-- REQUIREMENT MODEL AND RESOLVER (requirements.py) ---------------------------

/-- Embeds the ScriptLoading Flag enum: NORMAL, DEFER, ASYNC, PRELOAD and the
ASYNC_DEFER combination are the only values the code base constructs. -/
inductive ScriptLoading where
  | NORMAL : ScriptLoading
  | DEFER : ScriptLoading
  | ASYNC : ScriptLoading
  | ASYNC_DEFER : ScriptLoading
  | PRELOAD : ScriptLoading
deriving DecidableEq, Repr

/-- Embeds requirements.Resource: a preloadable asset reference.  Hash and
equality in the source are by path alone.  (The constructor type checks
reject non-strings and unknown content types; in the typed embedding those
cannot arise.) -/
structure Resource where
  path : String
  content_type : String
  mime_type : Option String
deriving DecidableEq, Repr

/-- Embeds requirements.ScriptRequirement; hash and equality by path alone. -/
structure ScriptRequirement where
  name : String
  path : String
  priority : Int
  loading_technique : ScriptLoading
  preload_resources : List Resource
deriving DecidableEq, Repr

/-- Embeds requirements.StyleRequirement; hash and equality by path alone. -/
structure StyleRequirement where
  name : String
  path : String
  priority : Int
  preload_resources : List Resource
deriving DecidableEq, Repr

/-- Embeds requirements.PageResourceData.  Python stores the three collections
as sets whose member hash is the path; they are modelled as lists holding at
most one entry per path, in insertion order (set iteration order is
irrelevant to every property stated about them). -/
structure PageResourceData where
  resource_preload : List Resource
  style_requirements : List StyleRequirement
  script_requirements : List ScriptRequirement
deriving DecidableEq, Repr

/-- Embeds PageResourceData.add_resource: with overwrite the path-equal
occupant is discarded and the new resource stored; without, set.add keeps an
existing path-equal occupant (first writer wins). -/
def PageResourceData.add_resource (p : PageResourceData) (new_resource : Resource) (overwrite : Bool) : PageResourceData :=
  if overwrite then
    { p with resource_preload :=
        (p.resource_preload.filter (fun r => !(r.path == new_resource.path))) ++ [new_resource] }
  else
    if p.resource_preload.any (fun r => r.path == new_resource.path) then p
    else { p with resource_preload := p.resource_preload ++ [new_resource] }

/-- Embeds PageResourceData.add_resource_list: adds each resource in order
with the given overwrite flag. -/
def PageResourceData.add_resource_list (p : PageResourceData) (resource_list : List Resource) (overwrite : Bool) : PageResourceData :=
  resource_list.foldl (fun p r => p.add_resource r overwrite) p

/-- Models the expression (set([x]) & stored).pop() of add_script, under the
guard that stored holds an element path-equal to x.  CPython intersects by
iterating the smaller operand and inserting the iterated operand's elements
into the result; the singleton is the left operand, so when stored has two
or more elements the operands are swapped and the popped element is the
incoming x itself, and only when stored is itself a singleton is the stored
element popped.  (The source's NOTE comment believes the stored element is
always obtained; see the theorems on add_script.) -/
def singletonIntersectPickScript (x : ScriptRequirement) (stored : List ScriptRequirement) : ScriptRequirement :=
  if stored.length ≤ 1 then
    match stored.filter (fun y => y.path == x.path) with
    | y :: _ => y
    | [] => x
  else x

/-- Style counterpart of singletonIntersectPickScript. -/
def singletonIntersectPickStyle (x : StyleRequirement) (stored : List StyleRequirement) : StyleRequirement :=
  if stored.length ≤ 1 then
    match stored.filter (fun y => y.path == x.path) with
    | y :: _ => y
    | [] => x
  else x

/-- Embeds PageResourceData.add_script: membership, equality and removal are
all by path (the classes hash by path).  On a path collision the current
occupant is obtained via (set([new]) & stored).pop(); if the incoming
priority is strictly greater the occupant is removed and the incoming
requirement stored and its preload resources merged with overwrite, else the
stored set is untouched and the incoming resources merged without overwrite;
a new path is simply inserted and its resources merged. -/
def PageResourceData.add_script (p : PageResourceData) (script_requirement : ScriptRequirement) : PageResourceData :=
  if p.script_requirements.any (fun y => y.path == script_requirement.path) then
    let current := singletonIntersectPickScript script_requirement p.script_requirements
    if script_requirement.priority > current.priority then
      let p' : PageResourceData :=
        { p with script_requirements :=
            (p.script_requirements.filter (fun y => !(y.path == current.path))) ++ [script_requirement] }
      p'.add_resource_list script_requirement.preload_resources true
    else
      p.add_resource_list script_requirement.preload_resources false
  else
    let p' : PageResourceData :=
      { p with script_requirements := p.script_requirements ++ [script_requirement] }
    p'.add_resource_list script_requirement.preload_resources false

/-- Embeds PageResourceData.add_style, identical in shape to add_script on the
style set. -/
def PageResourceData.add_style (p : PageResourceData) (style_requirement : StyleRequirement) : PageResourceData :=
  if p.style_requirements.any (fun y => y.path == style_requirement.path) then
    let current := singletonIntersectPickStyle style_requirement p.style_requirements
    if style_requirement.priority > current.priority then
      let p' : PageResourceData :=
        { p with style_requirements :=
            (p.style_requirements.filter (fun y => !(y.path == current.path))) ++ [style_requirement] }
      p'.add_resource_list style_requirement.preload_resources true
    else
      p.add_resource_list style_requirement.preload_resources false
  else
    let p' : PageResourceData :=
      { p with style_requirements := p.style_requirements ++ [style_requirement] }
    p'.add_resource_list style_requirement.preload_resources false

/-- Embeds PageResourceData.add_script_list: adds each requirement in order. -/
def PageResourceData.add_script_list (p : PageResourceData) (rs : List ScriptRequirement) : PageResourceData :=
  rs.foldl (fun p r => p.add_script r) p

/-- Embeds PageResourceData.add_style_list: adds each requirement in order. -/
def PageResourceData.add_style_list (p : PageResourceData) (rs : List StyleRequirement) : PageResourceData :=
  rs.foldl (fun p r => p.add_style r) p

-- ELEMENT TREE AND RENDERER (htmllib.py) -------------------------------------

/-- Lower-cases every character of a list, as Python str.lower does. -/
def lowerList : List Char → List Char
  | [] => []
  | c :: cs => c.toLower :: lowerList cs

/-- The class-name processing of the HTMLElement.name property: if the class
name starts with "tag" those three characters are removed, and the result is
lower-cased. -/
def derivedTagName (cn : String) : String :=
  let base : List Char :=
    match cn.data with
    | 't' :: 'a' :: 'g' :: rest => rest
    | other => other
  String.mk (lowerList base)

/-- Embeds the HTMLElement.name property: a truthy tag_name_override (present
and non-empty) wins, otherwise the name derives from the class name. -/
def elementName (cn : String) (ov : Option String) : String :=
  match ov with
  | some s => if s = "" then derivedTagName cn else s
  | none => derivedTagName cn

/-- One item of a Raw element's code list: a literal string or one of the
global_var / local_var closures (the only callables the code base stores
there). -/
inductive RawItem where
  | rtext : String → RawItem
  | rvar : Bool → String → PyVal → RawItem

/-- Discriminates the render behaviour of a node: a plain HTMLElement tag, the
Page variant (DOCTYPE prefix), the JSONData variant (payload dumped to JSON
and forced as the single child at render time; string payloads, which the
source validates with json.loads, are not modelled since no claim depends on
JSON parsing), or the Raw variant (code list concatenated; the stored
separator and the format_content flag are unexercised by every claim and not
modelled). -/
inductive ElemKind where
  | normal : ElemKind
  | page : ElemKind
  | jsond : PyVal → ElemKind
  | raw : List RawItem → ElemKind

mutual

/-- Embeds an HTMLElement instance: the class name and tag_name_override
(feeding the name property), the render-behaviour kind, the three flags, the
attribute and data-attribute dicts and the children list. -/
inductive Element where
  | mk : String → Option String → ElemKind → Bool → Bool → Bool →
      List (String × AttrValue) → List (String × AttrValue) → List Item → Element

/-- Embeds the ITEM type alias: a child is an element, a string, a sequence of
items, or a callable (a global_var / local_var closure, embedded as data). -/
inductive Item where
  | elem : Element → Item
  | text : String → Item
  | seq : List Item → Item
  | var : Bool → String → PyVal → Item

end

/-- Class name of an element. -/
def Element.class_name : Element → String
  | .mk cn _ _ _ _ _ _ _ _ => cn

/-- The tag_name_override attribute of an element. -/
def Element.tag_name_override : Element → Option String
  | .mk _ ov _ _ _ _ _ _ _ => ov

/-- Render-behaviour kind of an element. -/
def Element.kind : Element → ElemKind
  | .mk _ _ k _ _ _ _ _ _ => k

/-- The self_closing flag of an element. -/
def Element.self_closing : Element → Bool
  | .mk _ _ _ sc _ _ _ _ _ => sc

/-- The escape_content flag of an element. -/
def Element.escape_content : Element → Bool
  | .mk _ _ _ _ esc _ _ _ _ => esc

/-- The whitespace_sensitive flag of an element. -/
def Element.whitespace_sensitive : Element → Bool
  | .mk _ _ _ _ _ wss _ _ _ => wss

/-- The attribute dict of an element. -/
def Element.attributes : Element → List (String × AttrValue)
  | .mk _ _ _ _ _ _ attrs _ _ => attrs

/-- The data-attribute dict of an element. -/
def Element.data : Element → List (String × AttrValue)
  | .mk _ _ _ _ _ _ _ dat _ => dat

/-- The children list of an element. -/
def Element.children : Element → List Item
  | .mk _ _ _ _ _ _ _ _ ch => ch

/-- The name property of an element instance. -/
def Element.name (e : Element) : String :=
  elementName e.class_name e.tag_name_override

/-- The per-level indentation constant INDENT of htmllib. -/
def INDENT : Nat := 2

mutual

/-- Renders a context value reached by resolving a callable child: mirrors
the dispatch of _render_item restricted to the values a context can hold
(no elements, no further callables): a string takes the string branch, a
list takes the _render_list branch, anything else is stringified and takes
the string branch. -/
def renderResolved (v : PyVal) (indent : Nat) (ws : Bool) : String :=
  match v with
  | .vstr s => renderStringItem s indent ws
  | .vlist xs => renderResolvedList true xs indent ws
  | other => renderStringItem (pyStr other) indent ws

/-- The _render_list loop over resolved list members: a newline separator
precedes every member but the first when not whitespace-sensitive. -/
def renderResolvedList (isFirst : Bool) (items : List PyVal) (indent : Nat) (ws : Bool) : String :=
  match items with
  | [] => ""
  | x :: xs =>
      (if isFirst || ws then "" else "\n") ++ renderResolved x indent ws
        ++ renderResolvedList false xs indent ws

end

/-- Embeds the tag-assembly part of HTMLElement.render, given the already
rendered children joined as inner: attribute and data-attribute strings are
encoded (skipped for falsy, i.e. empty, dicts) with a leading space; the
node's own indentation comes from the whitespace_sensitive parameter (not
the node's flag); a self-closing node emits one tag and never recurses;
otherwise the children block is wrapped in newlines when not
whitespace-sensitive, escaped as one block if escape_content is set, and
enclosed in the opening and closing tags. -/
def renderTagWrap (nm : String) (sc esc : Bool) (attrs dat : List (String × AttrValue)) (g l : Ctx) (indent : Nat) (ws : Bool) (hasChildren : Bool) (inner : String) : Except PyErr String := do
  let self_attributes_string ←
    if attrs.isEmpty then pure ""
    else do
      let s ← encode_tag_attributes attrs "" "." g l false
      pure (" " ++ s)
  let self_data_attributes_string ←
    if dat.isEmpty then pure ""
    else do
      let s ← encode_tag_attributes dat "" "." g l true
      pure (" " ++ s)
  let self_indent := if ws then "" else spacesStr indent
  if sc then
    pure (self_indent ++ "<" ++ nm ++ self_attributes_string ++ self_data_attributes_string ++ "/>")
  else
    let content :=
      if hasChildren then
        (if ws then "" else "\n") ++ inner ++ (if ws then "" else "\n")
      else ""
    let content := if esc then escape_html_text content else content
    pure (self_indent ++ "<" ++ nm ++ self_attributes_string ++ self_data_attributes_string
      ++ ">" ++ content ++ self_indent ++ "</" ++ nm ++ ">")

/-- Concatenation loop of Raw.render over the code list: literal strings are
stringified and appended; a callable is resolved through
get_dict_subattribute and must yield a string, otherwise an
HTMLStructuralError is raised.  (An element in the list, which the source
rejects, is unrepresentable in RawItem.) -/
def rawConcat : List RawItem → Ctx → Ctx → Except PyErr String
  | [], _, _ => pure ""
  | .rtext s :: rest, g, l => do
      let r ← rawConcat rest g l
      pure (s ++ r)
  | .rvar isG k dflt :: rest, g, l => do
      let v ← get_dict_subattribute (.vdict (if isG then g else l)) k dflt
      match v with
      | .vstr s => do
          let r ← rawConcat rest g l
          pure (s ++ r)
      | _ => .error (.structural "Non-string value returned by function in argument")

mutual

/-- Embeds the render methods of htmllib.  A normal tag renders its children
(if any) with the indent increased by INDENT and the whitespace-sensitivity
parameter or-ed with the node's own flag, then wraps them in its tags; Page
does the same and prefixes the DOCTYPE line; JSONData dumps its payload to a
JSON string, overwrites its children with that single string (see
Element.renderPost) and renders like a normal tag; Raw concatenates its code
list, optionally escapes it, and forwards the result through the string
branch of _render_item. -/
def Element.render (e : Element) (g l : Ctx) (indent : Nat) (ws : Bool) : Except PyErr String :=
  match e with
  | .mk cn ov .normal sc esc wss attrs dat children => do
      let inner ←
        if children.isEmpty then pure ""
        else renderListHead children g l (indent + INDENT) (ws || wss)
      renderTagWrap (elementName cn ov) sc esc attrs dat g l indent ws (!children.isEmpty) inner
  | .mk cn ov .page sc esc wss attrs dat children => do
      let inner ←
        if children.isEmpty then pure ""
        else renderListHead children g l (indent + INDENT) (ws || wss)
      let s ← renderTagWrap (elementName cn ov) sc esc attrs dat g l indent ws (!children.isEmpty) inner
      pure ("<!DOCTYPE html>\n" ++ s)
  | .mk cn ov (.jsond payload) sc esc wss attrs dat _children =>
      renderTagWrap (elementName cn ov) sc esc attrs dat g l indent ws true
        (renderStringItem (jsonDumps payload) (indent + INDENT) (ws || wss))
  | .mk _ _ (.raw code) _ esc _ _ _ _ => do
      let s ← rawConcat code g l
      let s := if esc then escape_html_text s else s
      pure (renderStringItem s indent ws)

/-- Embeds _render_item: an element recurses into its render method, a
callable is resolved through get_dict_subattribute and its value rendered, a
sequence takes the _render_list loop, a string takes the per-line
indentation branch. -/
def renderItem (it : Item) (g l : Ctx) (indent : Nat) (ws : Bool) : Except PyErr String :=
  match it with
  | .elem e => e.render g l indent ws
  | .text s => pure (renderStringItem s indent ws)
  | .seq xs => renderListHead xs g l indent ws
  | .var isG k dflt => do
      let v ← get_dict_subattribute (.vdict (if isG then g else l)) k dflt
      pure (renderResolved v indent ws)

/-- The _render_list loop, first item: no separator before it. -/
def renderListHead (items : List Item) (g l : Ctx) (indent : Nat) (ws : Bool) : Except PyErr String :=
  match items with
  | [] => pure ""
  | x :: xs => do
      let s ← renderItem x g l indent ws
      let rest ← renderListTail xs g l indent ws
      pure (s ++ rest)

/-- The _render_list loop, later items: a newline separator precedes each when
not whitespace-sensitive. -/
def renderListTail (items : List Item) (g l : Ctx) (indent : Nat) (ws : Bool) : Except PyErr String :=
  match items with
  | [] => pure ""
  | x :: xs => do
      let s ← renderItem x g l indent ws
      let rest ← renderListTail xs g l indent ws
      pure ((if ws then "" else "\n") ++ s ++ rest)

end

/-- The state of a node's own fields after its render method returns: only
JSONData.render assigns to self (it overwrites self.children with the single
dumped JSON string before delegating to the superclass render); every other
render method leaves the node untouched. -/
def Element.renderPost (e : Element) : Element :=
  match e with
  | .mk cn ov (.jsond payload) sc esc wss attrs dat _children =>
      .mk cn ov (.jsond payload) sc esc wss attrs dat [.text (jsonDumps payload)]
  | other => other

/-- The literal-text children of a node, used to observe the children field
without an equality instance on Item. -/
def Element.childTexts (e : Element) : List String :=
  e.children.filterMap (fun it =>
    match it with
    | .text s => some s
    | _ => none)

-- CONSTRUCTION AND CLONING (HTMLElement init / call) -------------------------

/-- Class-level data of an HTMLElement subclass: the class name, the
tag_name_override, the self_closing flag, and the default attribute and
data-attribute dicts.  The kind field distinguishes the render behaviour
(normal for every plain tag class, page for Page). -/
structure ClassSpec where
  class_name : String
  tag_name_override : Option String
  kind : ElemKind
  self_closing : Bool
  default_attributes : List (String × AttrValue)
  default_data : List (String × AttrValue)

/-- Models the Python dict merge of two literal dicts: keys of the first in
their order, values overridden by the second when present, followed by the
keys only the second holds, in its order. -/
def dictMerge (a b : List (String × AttrValue)) : List (String × AttrValue) :=
  (a.map (fun kv =>
    match b.lookup kv.1 with
    | some w => (kv.1, w)
    | none => kv))
  ++ b.filter (fun kv => (a.lookup kv.1).isNone)

/-- Embeds HTMLElement.init: a self-closing class given at least one child
(positional args or the children parameter) raises HTMLStructuralError;
otherwise the node is built with the flags given (both default False), the
children being args then children, and the attribute and data dicts being
the class defaults merged beneath the arguments. -/
def elementInit (cls : ClassSpec) (args children : List Item) (escape_content whitespace_sensitive : Bool) (attrs data : List (String × AttrValue)) : Except PyErr Element :=
  if cls.self_closing && !(args ++ children).isEmpty then
    .error (.structural "Self closing tag cant have children")
  else
    .ok (.mk cls.class_name cls.tag_name_override cls.kind cls.self_closing
      escape_content whitespace_sensitive
      (dictMerge cls.default_attributes attrs)
      (dictMerge cls.default_data data)
      (args ++ children))

/-- Embeds HTMLElement.call: the clone is a deep copy of self (a value copy in
the embedding); a self-closing clone given at least one child raises
HTMLStructuralError; otherwise the clone's flags, children, attributes and
data are set to exactly the arguments given (the flags default to False and
the dicts to empty, with no re-merge of class defaults).  The pair returned
is (self after the call, the clone): every assignment of the source targets
the clone, so self is returned unchanged. -/
def elementCall (e : Element) (args children : List Item) (escape_content whitespace_sensitive : Bool) (attrs data : List (String × AttrValue)) : Except PyErr (Element × Element) :=
  match e with
  | .mk cn ov kind sc _ _ _ _ _ =>
      if sc && !(args ++ children).isEmpty then
        .error (.structural "Self closing tag cant have children")
      else
        .ok (e, .mk cn ov kind sc escape_content whitespace_sensitive attrs data (args ++ children))

/-- Class-level data of htmllib.tagDIV. -/
def tagDIVSpec : ClassSpec := ⟨"tagDIV", none, .normal, false, [], []⟩

/-- Class-level data of htmllib.tagSPAN. -/
def tagSPANSpec : ClassSpec := ⟨"tagSPAN", none, .normal, false, [], []⟩

/-- Class-level data of htmllib.tagSCRIPT, which declares the default
attribute type = text/javascript. -/
def tagSCRIPTSpec : ClassSpec :=
  ⟨"tagSCRIPT", none, .normal, false, [("type", .vstr "text/javascript")], []⟩

/-- Class-level data of htmllib.tagBR, a SelfClosingTag subclass. -/
def tagBRSpec : ClassSpec := ⟨"tagBR", none, .normal, true, [], []⟩

/-- Class-level data of htmllib.tagLINK, a SelfClosingTag subclass. -/
def tagLINKSpec : ClassSpec := ⟨"tagLINK", none, .normal, true, [], []⟩

/-- Class-level data of htmllib.Page, whose tag_name_override is html. -/
def pageSpec : ClassSpec := ⟨"Page", some "html", .page, false, [], []⟩

-- COMPONENT COMPOSITION PROTOCOL (bases.py) ----------------------------------

/-- Embeds bases.HTMLData: a compiled code string together with the script and
style requirement lists it declares. -/
structure HTMLData where
  code : String
  script_requirements : List ScriptRequirement
  style_requirements : List StyleRequirement
deriving DecidableEq, Repr

/-- The template of bases.BaseContainer: tagDIV(local_var("children")). -/
def BaseContainer.template : Element :=
  .mk "tagDIV" none .normal false false false [] [] [.var false "children" .vnone]

/-- The template of bases.BaseWrapper: tagDIV(local_var("child")). -/
def BaseWrapper.template : Element :=
  .mk "tagDIV" none .normal false false false [] [] [.var false "child" .vnone]

/-- The template of bases.BaseWidget: tagSPAN(local_var("text")). -/
def BaseWidget.template : Element :=
  .mk "tagSPAN" none .normal false false false [] [] [.var false "text" .vnone]

/-- A component built over the composition protocol of bases.py: a BaseWidget
(its own requirement lists and its text), a BaseWrapper (one child) or a
BaseContainer (a list of children), each keeping the base template of its
class. -/
inductive Component where
  | widget : List ScriptRequirement → List StyleRequirement → String → Component
  | wrapper : List ScriptRequirement → List StyleRequirement → Component → Component
  | container : List ScriptRequirement → List StyleRequirement → List Component → Component

mutual

/-- Embeds the _compile methods of bases.py.  A widget renders its template
with local context text = its text and returns its own requirement lists; a
wrapper compiles its child, splices the child's code through the local
context slot child, and returns its own lists concatenated with the
child's; a container compiles each child in order, splices the list of their
code strings through the slot children, and returns its own lists
concatenated with every child's in child order. -/
def Component.compile : Component → Ctx → Except PyErr HTMLData
  | .widget sreqs streqs text, g => do
      let code ← BaseWidget.template.render g [("text", .vstr text)] 0 false
      pure ⟨code, sreqs, streqs⟩
  | .wrapper sreqs streqs child, g => do
      let cc ← child.compile g
      let code ← BaseWrapper.template.render g [("child", .vstr cc.code)] 0 false
      pure ⟨code, sreqs ++ cc.script_requirements, streqs ++ cc.style_requirements⟩
  | .container sreqs streqs cs, g => do
      let compiled ← Component.compileList cs g
      let code ← BaseContainer.template.render g
        [("children", .vlist (compiled.map (fun h => .vstr h.code)))] 0 false
      pure ⟨code,
        sreqs ++ (compiled.map (fun h => h.script_requirements)).flatten,
        streqs ++ (compiled.map (fun h => h.style_requirements)).flatten⟩

/-- Compiles a list of children in order. -/
def Component.compileList : List Component → Ctx → Except PyErr (List HTMLData)
  | [], _ => pure []
  | c :: cs, g => do
      let h ← c.compile g
      let hs ← Component.compileList cs g
      pure (h :: hs)

end

/-- Substring test over the character lists of two strings (needle non-empty
in every use). -/
def strContainsAux (needle : List Char) : List Char → Bool
  | [] => needle.isEmpty
  | c :: rest => needle.isPrefixOf (c :: rest) || strContainsAux needle rest

/-- Tests whether sub occurs as a contiguous substring of s. -/
def strContains (s sub : String) : Bool := strContainsAux sub.data s.data

-- OBSERVERS AND NEWLINE-FREENESS PREDICATES ----------------------------------

/-- Tests whether a node is a JSONData variant. -/
def Element.isJsonData (e : Element) : Bool :=
  match e.kind with
  | .jsond _ => true
  | _ => false

/-- Tests that a string does not start with a whitespace character. -/
def headNonWs (s : String) : Bool :=
  match s.data with
  | [] => true
  | c :: _ => !c.isWhitespace

mutual

/-- Newline-freeness of a context value: its strings, its list members and its
dict keys and values contain no newline character. -/
def pyNlFree : PyVal → Bool
  | .vstr s => !hasNl s
  | .vlist xs => pyNlFreeList xs
  | .vdict kvs => pyNlFreeDict kvs
  | .vnone => true
  | .vbool _ => true
  | .vint _ => true

/-- Newline-freeness of the members of a list value. -/
def pyNlFreeList : List PyVal → Bool
  | [] => true
  | x :: xs => pyNlFree x && pyNlFreeList xs

/-- Newline-freeness of the entries of a dict value. -/
def pyNlFreeDict : List (String × PyVal) → Bool
  | [] => true
  | (k, v) :: xs => !hasNl k && pyNlFree v && pyNlFreeDict xs

end

/-- Newline-freeness of a whole render context. -/
def ctxNlFree (c : Ctx) : Bool := pyNlFreeDict c

mutual

/-- Newline-freeness of a template attribute value: literal strings, nested
keys and the defaults of embedded callables contain no newline character. -/
def attrNlFree : AttrValue → Bool
  | .vstr s => !hasNl s
  | .vbool _ => true
  | .vint _ => true
  | .vdict kvs => attrNlFreeDict kvs
  | .vlist xs => attrNlFreeList xs
  | .vvar _ _ dflt => pyNlFree dflt

/-- Newline-freeness of the entries of an attribute dict. -/
def attrNlFreeDict : List (String × AttrValue) → Bool
  | [] => true
  | (k, v) :: xs => !hasNl k && attrNlFree v && attrNlFreeDict xs

/-- Newline-freeness of the members of an attribute list value. -/
def attrNlFreeList : List AttrValue → Bool
  | [] => true
  | x :: xs => attrNlFree x && attrNlFreeList xs

end

/-- Newline-freeness of the code list of a Raw element. -/
def rawItemsNlFree : List RawItem → Bool
  | [] => true
  | .rtext s :: xs => !hasNl s && rawItemsNlFree xs
  | .rvar _ _ dflt :: xs => pyNlFree dflt && rawItemsNlFree xs

mutual

/-- Newline-freeness of every string embedded in an element: its rendered tag
name, its attribute and data dicts, its Raw code list when applicable, and
all of its descendants.  A JSONData payload needs no condition (json.dumps
escapes newlines inside JSON strings), while a Page node is never
newline-free: its render unconditionally prefixes the DOCTYPE line, which
ends in a newline. -/
def elemNlFree : Element → Bool
  | .mk cn ov kind _ _ _ attrs dat ch =>
      !hasNl (elementName cn ov) && attrNlFreeDict attrs && attrNlFreeDict dat
        && (match kind with
            | .raw code => rawItemsNlFree code
            | .page => false
            | _ => true)
        && itemsNlFree ch

/-- Newline-freeness of an item. -/
def itemNlFree : Item → Bool
  | .elem e => elemNlFree e
  | .text s => !hasNl s
  | .seq xs => itemsNlFree xs
  | .var _ _ dflt => pyNlFree dflt

/-- Newline-freeness of an item list. -/
def itemsNlFree : List Item → Bool
  | [] => true
  | x :: xs => itemNlFree x && itemsNlFree xs

end

-- CONCRETE INPUTS USED BY INDIVIDUAL CLAIM THEOREMS --------------------------

/-- A page-resource store already holding requirements for two distinct paths,
among them /a.js at priority 10. -/
def prdTwoPaths : PageResourceData :=
  ⟨[], [], [⟨"b", "/b.js", 50, .ASYNC_DEFER, []⟩, ⟨"a", "/a.js", 10, .ASYNC_DEFER, []⟩]⟩

/-- A page-resource store holding only /a.js at priority 10. -/
def prdOnePath : PageResourceData :=
  ⟨[], [], [⟨"a", "/a.js", 10, .ASYNC_DEFER, []⟩]⟩

/-- An incoming duplicate declaration of /a.js at priority 90 carrying one
preload resource. -/
def incomingA90 : ScriptRequirement :=
  ⟨"a2", "/a.js", 90, .ASYNC_DEFER, [⟨"/r.png", "image", none⟩]⟩

/-- A span marked whitespace-sensitive holding one newline-free text child. -/
def spanSensitive : Element :=
  .mk "tagSPAN" none .normal false false true [] [] [.text "a"]

/-- A JSONData node as built by its init: payload 1, the class default
attribute type = application/json, and no children. -/
def jsonNode : Element :=
  .mk "JSONData" (some "script") (.jsond (.vint 1)) false false false
    [("type", .vstr "application/json")] [] []

/-- A widget with text x and no requirements. -/
def widgetX : Component := .widget [] [] "x"

/-- A widget with text y and no requirements. -/
def widgetY : Component := .widget [] [] "y"

-- THEOREMS -------------------------------------------------------------------

/-- Claim C7: encoding the attribute mapping with entries a = x, b = True and
c = a nested dict holding y = the list [1, 2] (no prefix, default
concatenator, empty contexts) produces exactly the string
a='x' b c.y.0='1' c.y.1='2': True emits the bare key, nested mappings
flatten to dot-paths, lists flatten by index, and the fragments appear
space-joined in insertion order. -/
theorem encode_tag_attributes_example :
    encode_tag_attributes
      [("a", .vstr "x"), ("b", .vbool true), ("c", .vdict [("y", .vlist [.vint 1, .vint 2])])]
      "" "." [] [] false
      = .ok "a=\x27x\x27 b c.y.0=\x271\x27 c.y.1=\x272\x27" := rfl

/-- Claim C1: evaluation of add_script at the failing input.  With two
requirements already stored, the popped element of the singleton
intersection is the incoming requirement itself, so the strictly higher
incoming priority 90 does not replace the stored priority 10 (first two
conjuncts), although its preload resources are still merged (third); with a
single stored requirement, as in the spec's example, the replacement does
happen (remaining conjuncts). -/
theorem add_script_priority_replacement_evaluated :
    (prdTwoPaths.add_script incomingA90).script_requirements
        = [⟨"b", "/b.js", 50, .ASYNC_DEFER, []⟩, ⟨"a", "/a.js", 10, .ASYNC_DEFER, []⟩]
  ∧ ((prdTwoPaths.add_script incomingA90).script_requirements.filter
        (fun r => r.path == "/a.js")).map (fun r => r.priority) = [10]
  ∧ (prdTwoPaths.add_script incomingA90).resource_preload = [⟨"/r.png", "image", none⟩]
  ∧ (prdOnePath.add_script incomingA90).script_requirements = [incomingA90]
  ∧ (prdOnePath.add_script incomingA90).resource_preload = [⟨"/r.png", "image", none⟩] :=
  ⟨rfl, rfl, rfl, rfl, rfl⟩

/-- Claim C2, counterexample: a node marked whitespace_sensitive, rendered
with the default parameter (false) at indent 2, still receives its own
indentation prefix (the output starts with whitespace) and newlines are
inserted around its child block, although its single child text holds no
newline: the marked node's own line is governed by the parameter its caller
passes, not by its flag. -/
theorem whitespace_sensitive_node_own_output :
    spanSensitive.whitespace_sensitive = true
  ∧ itemsNlFree spanSensitive.children = true
  ∧ spanSensitive.render [] [] 2 false = .ok "  <span>\na\n  </span>"
  ∧ hasNl "  <span>\na\n  </span>" = true
  ∧ headNonWs "  <span>\na\n  </span>" = false :=
  ⟨rfl, rfl, rfl, rfl, rfl⟩

/-- Claim C3, counterexample: rendering a JSONData node changes the node's own
children field from the empty list to the singleton dumped JSON string, so
render does not leave the node's fields unchanged; rendering again with the
same arguments nevertheless produces the same string. -/
theorem jsondata_render_mutates_children :
    jsonNode.children.length = 0
  ∧ (jsonNode.renderPost).children.length = 1
  ∧ (jsonNode.renderPost).childTexts = ["1"]
  ∧ jsonNode.render [] [] 0 false = .ok "<script type=\x27application/json\x27>\n  1\n</script>"
  ∧ (jsonNode.renderPost).render [] [] 0 false = jsonNode.render [] [] 0 false :=
  ⟨rfl, rfl, rfl, rfl, rfl⟩

/-- Claim C8, counterexample: the compiled code of a container does not, in
general, contain its children's rendered strings: each line of a child's
code is prefixed with two spaces, so a multi-line child string (here the
compiled widget span) is not a substring of the container's code. -/
theorem container_compile_code_containment_fails :
    Component.compile widgetX [] = .ok ⟨"<span>\n  x\n</span>", [], []⟩
  ∧ Component.compile (.container [] [] [widgetX, widgetY]) []
      = .ok ⟨"<div>\n  <span>\n    x\n  </span>\n  <span>\n    y\n  </span>\n</div>", [], []⟩
  ∧ strContains "<div>\n  <span>\n    x\n  </span>\n  <span>\n    y\n  </span>\n</div>"
      "<span>\n  x\n</span>" = false :=
  ⟨rfl, rfl, rfl⟩

/-- Claim C5: a successful clone-with-overrides call returns self unchanged as
the template (every assignment targets the deep copy), and the clone carries
exactly the overrides: children, attributes, data and both flags are those
of the call, while the identity fields (class name, tag-name override,
self-closing) are inherited; rendering the template after the call gives the
same output as before. -/
theorem call_leaves_template_unchanged :
    ∀ T args children esc wss attrs dat T' C,
      elementCall T args children esc wss attrs dat = .ok (T', C) →
      T' = T
      ∧ C.children = args ++ children
      ∧ C.attributes = attrs
      ∧ C.data = dat
      ∧ C.escape_content = esc
      ∧ C.whitespace_sensitive = wss
      ∧ C.class_name = T.class_name
      ∧ C.tag_name_override = T.tag_name_override
      ∧ C.self_closing = T.self_closing
      ∧ (∀ g l i w, Element.render T' g l i w = Element.render T g l i w) := by
  intro T args children esc wss attrs dat T' C h
  cases T with
  | mk cn ov kind sc esc0 wss0 attrs0 dat0 ch0 =>
    rw [elementCall] at h
    split at h
    · exact absurd h (by simp)
    · rw [Except.ok.injEq, Prod.mk.injEq] at h
      obtain ⟨h1, h2⟩ := h
      subst h1
      subst h2
      refine ⟨rfl, rfl, rfl, rfl, rfl, rfl, rfl, rfl, rfl, fun g l i w => rfl⟩

/-- Claim C5, witness: calling a concrete div template with override children
and attributes leaves the template equal to itself and gives the clone the
overrides. -/
theorem call_leaves_template_unchanged_witness :
    Element.mk "tagDIV" none .normal false false false [("id", .vstr "t")] [] [.text "x"]
        = Element.mk "tagDIV" none .normal false false false [("id", .vstr "t")] [] [.text "x"]
      ∧ (Element.mk "tagDIV" none .normal false true true [("cls", .vstr "c")] [] [.text "y", .text "z"]).children
        = [Item.text "y"] ++ [Item.text "z"] := by
  have h := call_leaves_template_unchanged
    (.mk "tagDIV" none .normal false false false [("id", .vstr "t")] [] [.text "x"])
    [.text "y"] [.text "z"] true true [("cls", .vstr "c")] []
    (.mk "tagDIV" none .normal false false false [("id", .vstr "t")] [] [.text "x"])
    (.mk "tagDIV" none .normal false true true [("cls", .vstr "c")] [] [.text "y", .text "z"])
    rfl
  exact ⟨h.1 ▸ rfl, h.2.1⟩

/-- Claim C6: constructing or cloning a self-closing node with at least one
child (positional or named) raises HTMLStructuralError, and every
successfully constructed or cloned self-closing node has zero children. -/
theorem self_closing_zero_children :
    (∀ cls args children esc wss attrs dat,
        cls.self_closing = true → (args ++ children).isEmpty = false →
        elementInit cls args children esc wss attrs dat
          = .error (.structural "Self closing tag cant have children"))
  ∧ (∀ T args children esc wss attrs dat,
        T.self_closing = true → (args ++ children).isEmpty = false →
        elementCall T args children esc wss attrs dat
          = .error (.structural "Self closing tag cant have children"))
  ∧ (∀ cls args children esc wss attrs dat e,
        elementInit cls args children esc wss attrs dat = .ok e →
        e.self_closing = true → e.children = [])
  ∧ (∀ T args children esc wss attrs dat T' C,
        elementCall T args children esc wss attrs dat = .ok (T', C) →
        C.self_closing = true → C.children = []) := by
  refine ⟨?_, ?_, ?_, ?_⟩
  · intro cls args children esc wss attrs dat hsc hne
    rw [elementInit, hsc, hne]
    rfl
  · intro T args children esc wss attrs dat hsc hne
    cases T with
    | mk cn ov kind sc esc0 wss0 attrs0 dat0 ch0 =>
      rw [Element.self_closing] at hsc
      rw [elementCall, hsc, hne]
      rfl
  · intro cls args children esc wss attrs dat e h hsc
    rw [elementInit] at h
    split at h
    · exact absurd h (by simp)
    · rename_i hcond
      rw [Except.ok.injEq] at h
      subst h
      rw [Element.self_closing] at hsc
      rw [Element.children]
      rw [hsc] at hcond
      simp only [Bool.true_and, Bool.not_eq_true', Bool.not_eq_false] at hcond
      exact List.isEmpty_iff.mp hcond
  · intro T args children esc wss attrs dat T' C h hsc
    cases T with
    | mk cn ov kind sc esc0 wss0 attrs0 dat0 ch0 =>
      rw [elementCall] at h
      split at h
      · exact absurd h (by simp)
      · rename_i hcond
        rw [Except.ok.injEq, Prod.mk.injEq] at h
        obtain ⟨h1, h2⟩ := h
        subst h2
        rw [Element.self_closing] at hsc
        rw [Element.children]
        rw [hsc] at hcond
        simp only [Bool.true_and, Bool.not_eq_true', Bool.not_eq_false] at hcond
        exact List.isEmpty_iff.mp hcond

/-- Claim C6, witness: giving the self-closing br tag a child fails both at
construction and at cloning, and constructing it without children yields a
node with zero children. -/
theorem self_closing_zero_children_witness :
    elementInit tagBRSpec [Item.text "x"] [] false false [] []
        = .error (.structural "Self closing tag cant have children")
      ∧ elementCall (.mk "tagBR" none .normal true false false [] [] []) [Item.text "x"] [] false false [] []
        = .error (.structural "Self closing tag cant have children")
      ∧ (Element.mk "tagBR" none .normal true false false [] [] []).children = [] := by
  refine ⟨?_, ?_, ?_⟩
  · exact self_closing_zero_children.1 tagBRSpec [Item.text "x"] [] false false [] [] rfl rfl
  · exact self_closing_zero_children.2.1 (.mk "tagBR" none .normal true false false [] [] [])
      [Item.text "x"] [] false false [] [] rfl rfl
  · exact self_closing_zero_children.2.2.1 tagBRSpec [] [] false false [] []
      (.mk "tagBR" none .normal true false false [] [] []) rfl rfl

/-- Claim C10: construction merges the class defaults beneath the passed
attribute and data dicts, while cloning sets the clone's dicts to exactly
the passed mappings and its flags to exactly the call's flag arguments; in
particular the tagSCRIPT default type = text/javascript is present after
construction with no attributes and absent from a clone of that node. -/
theorem init_merges_defaults_call_does_not :
    (∀ cls args children esc wss attrs dat e,
        elementInit cls args children esc wss attrs dat = .ok e →
        e.attributes = dictMerge cls.default_attributes attrs
          ∧ e.data = dictMerge cls.default_data dat)
  ∧ (∀ T args children esc wss attrs dat T' C,
        elementCall T args children esc wss attrs dat = .ok (T', C) →
        C.attributes = attrs ∧ C.data = dat
          ∧ C.escape_content = esc ∧ C.whitespace_sensitive = wss)
  ∧ (∃ s : Element,
        elementInit tagSCRIPTSpec [] [] false false [] [] = .ok s
          ∧ s.attributes = [("type", .vstr "text/javascript")]
          ∧ ∃ pr : Element × Element,
              elementCall s [] [] false false [] [] = .ok pr ∧ pr.2.attributes = []) := by
  refine ⟨?_, ?_, ?_⟩
  · intro cls args children esc wss attrs dat e h
    rw [elementInit] at h
    split at h
    · exact absurd h (by simp)
    · rw [Except.ok.injEq] at h
      subst h
      exact ⟨rfl, rfl⟩
  · intro T args children esc wss attrs dat T' C h
    cases T with
    | mk cn ov kind sc esc0 wss0 attrs0 dat0 ch0 =>
      rw [elementCall] at h
      split at h
      · exact absurd h (by simp)
      · rw [Except.ok.injEq, Prod.mk.injEq] at h
        obtain ⟨h1, h2⟩ := h
        subst h2
        exact ⟨rfl, rfl, rfl, rfl⟩
  · exact ⟨.mk "tagSCRIPT" none .normal false false false [("type", .vstr "text/javascript")] [] [],
      rfl, rfl,
      ⟨(.mk "tagSCRIPT" none .normal false false false [("type", .vstr "text/javascript")] [] [],
        .mk "tagSCRIPT" none .normal false false false [] [] []), rfl, rfl⟩⟩

/-- Claim C10, witness: the general parts applied to the concrete tagSCRIPT
construction and clone. -/
theorem init_merges_defaults_call_does_not_witness :
    (Element.mk "tagSCRIPT" none .normal false false false [("type", .vstr "text/javascript")] [] []).attributes
        = dictMerge tagSCRIPTSpec.default_attributes []
      ∧ (Element.mk "tagSCRIPT" none .normal false false false [] [] []).attributes = [] := by
  have h1 := init_merges_defaults_call_does_not.1 tagSCRIPTSpec [] [] false false [] []
    (.mk "tagSCRIPT" none .normal false false false [("type", .vstr "text/javascript")] [] []) rfl
  have h2 := init_merges_defaults_call_does_not.2.1
    (.mk "tagSCRIPT" none .normal false false false [("type", .vstr "text/javascript")] [] [])
    [] [] false false [] []
    (.mk "tagSCRIPT" none .normal false false false [("type", .vstr "text/javascript")] [] [])
    (.mk "tagSCRIPT" none .normal false false false [] [] []) rfl
  exact ⟨h1.1, h2.1⟩

/-- Claim C3, amended: only the JSONData render method mutates the node it is
called on — it overwrites the node's children with the singleton dumped JSON
payload; every other variant leaves the node's own fields untouched, and
re-rendering the post-state with the same arguments yields the same string,
since JSONData recomputes its children from the payload on every render. -/
theorem render_mutates_only_jsondata :
    (∀ e : Element, e.isJsonData = false → e.renderPost = e)
  ∧ (∀ cn ov payload sc esc wss attrs dat ch,
      (Element.mk cn ov (.jsond payload) sc esc wss attrs dat ch).renderPost
        = .mk cn ov (.jsond payload) sc esc wss attrs dat [.text (jsonDumps payload)])
  ∧ (∀ (e : Element) g l i w, Element.render e.renderPost g l i w = Element.render e g l i w) := by
  refine ⟨?_, ?_, ?_⟩
  · intro e h
    cases e with
    | mk cn ov kind sc esc wss attrs dat ch =>
      cases kind with
      | jsond p => simp [Element.isJsonData, Element.kind] at h
      | normal => rfl
      | page => rfl
      | raw code => rfl
  · intro cn ov payload sc esc wss attrs dat ch
    rfl
  · intro e g l i w
    cases e with
    | mk cn ov kind sc esc wss attrs dat ch =>
      cases kind with
      | jsond p => rfl
      | normal => rfl
      | page => rfl
      | raw code => rfl

/-- Claim C3, amended, witness: the non-mutation part applied to a concrete
plain div and the stability part applied to the concrete JSONData node. -/
theorem render_mutates_only_jsondata_witness :
    (Element.mk "tagDIV" none .normal false false false [] [] [.text "x"]).renderPost
        = .mk "tagDIV" none .normal false false false [] [] [.text "x"]
      ∧ Element.render jsonNode.renderPost [] [] 0 false = Element.render jsonNode [] [] 0 false := by
  exact ⟨render_mutates_only_jsondata.1 (.mk "tagDIV" none .normal false false false [] [] [.text "x"]) rfl,
    render_mutates_only_jsondata.2.2 jsonNode [] [] 0 false⟩

/-- Claim C4, counterexample: resolving the path a.b on the mapping holding
the non-mapping value hello under a raises AttributeError (the .get call on
a string fails), so resolution is not error-free for every mapping, path and
default. -/
theorem get_dict_subattribute_raises :
    get_dict_subattribute (.vdict [("a", .vstr "hello")]) "a.b" (.vstr "dflt")
      = .error .attributeError := rfl

/-- Helper: the default passed to dict.get is irrelevant when the key is
present. -/
theorem pyDictGet_present (d : List (String × PyVal)) (k : String) (dflt dflt' : PyVal)
    (h : d.any (fun kv => kv.1 == k) = true) : pyDictGet d k dflt = pyDictGet d k dflt' := by
  induction d with
  | nil => simp at h
  | cons kv rest ih =>
    obtain ⟨k0, v0⟩ := kv
    by_cases hk : k0 == k
    · simp [pyDictGet, hk]
    · simp only [List.any_cons] at h
      rw [pyDictGet, pyDictGet]
      simp only [hk]
      simp only [hk, Bool.false_or] at h
      exact ih h

/-- Helper: dict.get yields the default when the key is absent. -/
theorem pyDictGet_absent (d : List (String × PyVal)) (k : String) (dflt : PyVal)
    (h : d.any (fun kv => kv.1 == k) = false) : pyDictGet d k dflt = dflt := by
  induction d with
  | nil => rfl
  | cons kv rest ih =>
    obtain ⟨k0, v0⟩ := kv
    simp only [List.any_cons, Bool.or_eq_false_iff] at h
    rw [pyDictGet]
    simp only [h.1]
    exact ih h.2

/-- Helper: no path can be looked up in the empty mapping. -/
theorem lookupPath_empty (s : String) (ss : List String) :
    lookupPath (.vdict []) (s :: ss) = none := by
  simp [lookupPath, pyDictGet]

/-- Helper: correspondence of the defaulted segment walk of
get_dict_subattribute with the specification-side path lookup, for an
initial segment list whose defaulted traversal meets only dicts. -/
theorem walk_correspond (init : List String) :
    ∀ (obj : PyVal) (last : String) (dflt : PyVal),
      allDicts obj init = true →
      (do
        let o ← init.foldlM (fun o k => pyGetMethod o k (PyVal.vdict [])) obj
        pyGetMethod o last dflt)
        = .ok ((lookupPath obj (init ++ [last])).getD dflt) := by
  induction init with
  | nil =>
    intro obj last dflt h
    cases obj with
    | vdict d =>
      simp only [List.foldlM_nil, List.nil_append]
      show pyGetMethod (.vdict d) last dflt = _
      rw [pyGetMethod]
      by_cases hp : d.any (fun kv => kv.1 == last) = true
      · rw [lookupPath]
        have hv := pyDictGet_present d last dflt .vnone hp
        rw [hp]
        simp only [Option.getD_some]
        rw [hv]
        simp [lookupPath]
      · rw [lookupPath]
        simp only [Bool.not_eq_true] at hp
        rw [hp]
        simp only [Option.getD_none]
        rw [pyDictGet_absent d last dflt hp]
    | vnone => simp [allDicts] at h
    | vbool b => simp [allDicts] at h
    | vstr s => simp [allDicts] at h
    | vint n => simp [allDicts] at h
    | vlist xs => simp [allDicts] at h
  | cons k ks ih =>
    intro obj last dflt h
    cases obj with
    | vdict d =>
      rw [allDicts] at h
      simp only [List.foldlM_cons, List.cons_append]
      show (do
          let o ← ks.foldlM (fun o k => pyGetMethod o k (PyVal.vdict [])) (pyDictGet d k (.vdict []))
          pyGetMethod o last dflt)
        = .ok ((lookupPath (.vdict d) (k :: (ks ++ [last]))).getD dflt)
      rw [ih (pyDictGet d k (.vdict [])) last dflt h]
      by_cases hp : d.any (fun kv => kv.1 == k) = true
      · rw [lookupPath, hp]
        rw [pyDictGet_present d k .vnone (.vdict []) hp]
      · simp only [Bool.not_eq_true] at hp
        rw [lookupPath, hp]
        rw [pyDictGet_absent d k (.vdict []) hp]
        simp only [Option.getD_none]
        cases hks : ks ++ [last] with
        | nil => exact absurd hks (by simp)
        | cons s ss =>
            rw [lookupPath_empty s ss]
            simp
    | vnone => simp [allDicts] at h
    | vbool b => simp [allDicts] at h
    | vstr s => simp [allDicts] at h
    | vint n => simp [allDicts] at h
    | vlist xs => simp [allDicts] at h

/-- Helper: the dot splitter never yields an empty segment list (as in Python,
where even the empty string splits into one empty segment). -/
theorem pySplitDotAux_ne_nil (cs : List Char) : ∀ acc, pySplitDotAux acc cs ≠ [] := by
  induction cs with
  | nil => intro acc; simp [pySplitDotAux]
  | cons c rest ih =>
    intro acc
    rw [pySplitDotAux.eq_def]
    split
    · simp
    · simp
    · rename_i x1 x2 x3 heq
      injection heq with h1 h2
      subst h2
      exact ih _

/-- Claim C4, amended: whenever the defaulted walk of the leading path
segments meets only mappings (in particular whenever every present
intermediate value is a mapping — a present non-mapping intermediate raises
AttributeError instead, see the counterexample), get_dict_subattribute
returns, without error, the value found by descending the nested mappings
segment by segment, and the caller-supplied default whenever any path
segment is missing. -/
theorem get_dict_subattribute_default_on_missing :
    ∀ (obj : PyVal) (key : String) (dflt : PyVal),
      allDicts obj (pySplitDot key).dropLast = true →
      get_dict_subattribute obj key dflt
        = .ok ((lookupPath obj (pySplitDot key)).getD dflt) := by
  intro obj key dflt h
  rw [get_dict_subattribute]
  have hne : pySplitDot key ≠ [] := pySplitDotAux_ne_nil key.data []
  have hsplit : (pySplitDot key).dropLast ++ [(pySplitDot key).getLastD ""] = pySplitDot key := by
    rw [List.getLastD_eq_getLast? , List.getLast?_eq_getLast _ hne]
    simp only [Option.getD_some]
    exact List.dropLast_append_getLast hne
  have := walk_correspond (pySplitDot key).dropLast obj ((pySplitDot key).getLastD "") dflt h
  rw [hsplit] at this
  exact this

/-- Claim C4, amended, witness: resolving a.b on a nested mapping yields the
stored value, and resolving the same path on an empty mapping yields the
default, both without error. -/
theorem get_dict_subattribute_default_on_missing_witness :
    get_dict_subattribute (.vdict [("a", .vdict [("b", .vstr "v")])]) "a.b" .vnone = .ok (.vstr "v")
      ∧ get_dict_subattribute (.vdict []) "a.b" (.vstr "fallback") = .ok (.vstr "fallback") := by
  constructor
  · exact (get_dict_subattribute_default_on_missing
      (.vdict [("a", .vdict [("b", .vstr "v")])]) "a.b" .vnone rfl).trans rfl
  · exact (get_dict_subattribute_default_on_missing
      (.vdict []) "a.b" (.vstr "fallback") rfl).trans rfl

/-- Helper: bind on a succeeding Except computes by applying the
continuation. -/
theorem except_bind_ok {α β : Type} (a : α) (f : α → Except PyErr β) :
    (Except.ok a >>= f) = f a := rfl

/-- Helper: pure on Except is ok. -/
theorem except_pure_def {α : Type} (a : α) : (pure a : Except PyErr α) = .ok a := rfl

/-- Helper: stripping both ends is the identity on a character list whose
first and last characters are not whitespace. -/
theorem stripBoth_id (l : List Char)
    (h1 : ∀ c, l.head? = some c → c.isWhitespace = false)
    (h2 : ∀ c, l.getLast? = some c → c.isWhitespace = false) :
    (stripLeft (stripLeft l).reverse).reverse = l := by
  cases l with
  | nil => rfl
  | cons c t =>
    have hc : c.isWhitespace = false := h1 c rfl
    have hl1 : stripLeft (c :: t) = c :: t := by
      rw [stripLeft, hc]
      simp
    rw [hl1]
    cases hrev : (c :: t).reverse with
    | nil => exact absurd hrev (by simp)
    | cons d u =>
      have hd : (c :: t).getLast? = some d := by
        rw [← List.head?_reverse, hrev]
        rfl
      have hdns : d.isWhitespace = false := h2 d hd
      have : stripLeft (d :: u) = d :: u := by
        rw [stripLeft, hdns]
        simp
      rw [this, ← hrev, List.reverse_reverse]

/-- Helper: pyStrip is the identity on a string whose first and last
characters are not whitespace. -/
theorem pyStrip_eq_self (s : String)
    (h1 : ∀ c, s.data.head? = some c → c.isWhitespace = false)
    (h2 : ∀ c, s.data.getLast? = some c → c.isWhitespace = false) :
    pyStrip s = s := by
  rw [pyStrip, stripBoth_id s.data h1 h2]

/-- Claim C9: the hyphen rejection and the camel-case hyphenation apply only
to the top-level attribute key; a nested mapping's subkey is appended to the
dot-path verbatim, so a subkey containing a hyphen or a camel-case boundary
raises no error and is emitted unchanged. -/
theorem nested_subkeys_encode_verbatim :
    ∀ (key sk v : String) (g l : Ctx),
      hasHyphen key = false → headNonWs key = true → pyStrip v ≠ "" →
      encode_tag_attributes [(key, .vdict [(sk, .vstr v)])] "" "." g l false
        = .ok (encode_attribute_key key ++ "." ++ sk ++ "=\x27"
            ++ escape_html_text (pyStrip v) ++ "\x27") := by
  intro key sk v g l hhyp hhead hv
  have hquote : ("\x27" : String).data = ['\x27'] := rfl
  have hSdata : (encode_attribute_key key ++ "." ++ sk ++ "=\x27"
      ++ escape_html_text (pyStrip v) ++ "\x27").data
      = (encode_attribute_key key ++ "." ++ sk ++ "=\x27"
          ++ escape_html_text (pyStrip v)).data ++ ['\x27'] := by
    rw [String.data_append, hquote]
  have hlast : ∀ c, (encode_attribute_key key ++ "." ++ sk ++ "=\x27"
      ++ escape_html_text (pyStrip v) ++ "\x27").data.getLast? = some c →
      c.isWhitespace = false := by
    intro c hc
    rw [hSdata, List.getLast?_concat] at hc
    injection hc with h
    rw [← h]
    decide
  have hheadkey : ∀ c, (encode_attribute_key key).data.head? = some c → c.isWhitespace = false := by
    intro c hc
    cases hk : key.data with
    | nil =>
      rw [encode_attribute_key, hk] at hc
      simp at hc
    | cons c0 t =>
      rw [encode_attribute_key, hk] at hc
      simp only [String.data] at hc
      rw [List.head?] at hc
      have : c = c0 := by
        injection hc with h
        exact h.symm
      subst this
      rw [headNonWs, hk] at hhead
      simpa using hhead
  have hkeydot : ∀ c, ((encode_attribute_key key ++ ".").data).head? = some c →
      c.isWhitespace = false := by
    intro c hc
    rw [String.data_append] at hc
    cases hk : (encode_attribute_key key).data with
    | nil =>
      rw [hk] at hc
      rw [show ("." : String).data = ['.'] from rfl] at hc
      simp only [List.nil_append, List.head?_cons] at hc
      injection hc with h
      rw [← h]
      decide
    | cons c0 t =>
      rw [hk] at hc
      simp only [List.cons_append, List.head?_cons] at hc
      injection hc with h
      rw [← h]
      exact hheadkey c0 (by rw [hk]; rfl)
  have hheadS : ∀ c, (encode_attribute_key key ++ "." ++ sk ++ "=\x27"
      ++ escape_html_text (pyStrip v) ++ "\x27").data.head? = some c →
      c.isWhitespace = false := by
    intro c hc
    have hd : (encode_attribute_key key ++ "." ++ sk ++ "=\x27"
        ++ escape_html_text (pyStrip v) ++ "\x27").data
        = (encode_attribute_key key ++ ".").data
            ++ (sk.data ++ (("=\x27" : String).data
              ++ ((escape_html_text (pyStrip v)).data ++ ("\x27" : String).data))) := by
      simp [String.data_append, List.append_assoc]
    rw [hd, List.head?_append] at hc
    cases hk2 : (encode_attribute_key key ++ ".").data.head? with
    | none =>
      exfalso
      rw [List.head?_eq_none_iff] at hk2
      rw [String.data_append, show ("." : String).data = ['.'] from rfl] at hk2
      simp at hk2
    | some c0 =>
      rw [hk2] at hc
      simp only [Option.some_orElse] at hc
      injection hc with h
      subst h
      exact hkeydot c0 hk2
  have hstrip : pyStrip (encode_attribute_key key ++ "." ++ sk ++ "=\x27"
      ++ escape_html_text (pyStrip v) ++ "\x27")
      = encode_attribute_key key ++ "." ++ sk ++ "=\x27"
          ++ escape_html_text (pyStrip v) ++ "\x27" :=
    pyStrip_eq_self _ hheadS hlast
  have hSne : encode_attribute_key key ++ "." ++ sk ++ "=\x27"
      ++ escape_html_text (pyStrip v) ++ "\x27" ≠ "" := by
    intro h
    have := congrArg String.data h
    rw [hSdata] at this
    simp at this
  have he1 : encode_attribute_value (encode_attribute_key key ++ "." ++ sk) (.vstr v) "." g l
      = pure (encode_attribute_key key ++ "." ++ sk ++ "=\x27"
          ++ escape_html_text (pyStrip v) ++ "\x27") := by
    rw [encode_attribute_value]
    simp only [hv, if_neg, ite_false]
    rw [hstrip]
  have hdict : encode_attribute_value (encode_attribute_key key) (.vdict [(sk, .vstr v)]) "." g l
      = .ok (encode_attribute_key key ++ "." ++ sk ++ "=\x27"
          ++ escape_html_text (pyStrip v) ++ "\x27") := by
    rw [encode_attribute_value, encodeAttrValueDict, he1, except_pure_def, except_bind_ok,
      encodeAttrValueDict, except_pure_def, except_bind_ok, except_pure_def, except_bind_ok,
      except_pure_def]
    rw [joinSep, hstrip]
  rw [encode_tag_attributes, encodeTagAttrsAux]
  rw [hhyp]
  simp only [Bool.false_eq_true, if_false, ite_false, ne_eq, not_true_eq_false,
    if_false, Bool.false_eq_true]
  rw [hdict, encodeTagAttrsAux]
  simp only [except_pure_def, except_bind_ok]
  rw [hstrip]
  rw [if_neg hSne]
  rfl

/-- Claim C9, witness: the camel-case top-level key myKey becomes my-key while
the hyphenated camel-case subkey subKey-x passes through verbatim with no
error. -/
theorem nested_subkeys_encode_verbatim_witness :
    hasHyphen "myKey" = false ∧ headNonWs "myKey" = true
      ∧ encode_tag_attributes [("myKey", .vdict [("subKey-x", .vstr "1")])] "" "." [] [] false
          = .ok "my-key.subKey-x=\x271\x27" := by
  refine ⟨rfl, rfl, ?_⟩
  exact (nested_subkeys_encode_verbatim "myKey" "subKey-x" "1" [] [] rfl rfl
    (by decide)).trans rfl

/-- Helper: two strings with equal character lists are equal. -/
theorem stringExt (s t : String) (h : s.data = t.data) : s = t := by
  cases s; cases t
  exact congrArg String.mk h

/-- Helper: rendering the BaseContainer template over a local context holding
two child code strings splices each child indented by two spaces per line,
the children separated by a newline, inside the div tags. -/
theorem container_template_render (g : Ctx) (s1 s2 : String) :
    BaseContainer.template.render g [("children", .vlist [.vstr s1, .vstr s2])] 0 false
      = .ok ("<div>" ++ "\n" ++ indentLines 2 s1 ++ "\n" ++ indentLines 2 s2 ++ "\n" ++ "</div>") := by
  show Element.render (.mk "tagDIV" none .normal false false false [] [] [.var false "children" .vnone])
      g [("children", .vlist [.vstr s1, .vstr s2])] 0 false = _
  rw [Element.render]
  simp only [List.isEmpty_cons, Bool.false_eq_true, if_false, ite_false, Bool.false_or,
    Bool.or_false, Bool.not_false]
  rw [renderListHead, renderItem]
  simp only [Bool.false_eq_true, if_false, ite_false]
  rw [show get_dict_subattribute (.vdict [("children", PyVal.vlist [.vstr s1, .vstr s2])]) "children" .vnone
      = .ok (PyVal.vlist [.vstr s1, .vstr s2]) from rfl]
  simp only [except_pure_def, except_bind_ok]
  rw [renderListTail]
  simp only [except_pure_def, except_bind_ok]
  rw [renderResolved, renderResolvedList, renderResolved, renderResolvedList, renderResolvedList]
  rw [renderTagWrap]
  simp only [List.isEmpty_nil, if_true, ite_true, except_pure_def, except_bind_ok]
  simp only [Bool.false_eq_true, Bool.true_or, Bool.false_or, Bool.or_false, if_false,
    ite_false, if_true, ite_true, eq_self_iff_true]
  rw [show renderStringItem s1 (0 + INDENT) false = indentLines 2 s1 from rfl]
  rw [show renderResolved (PyVal.vstr s2) (0 + INDENT) false = indentLines 2 s2 from rfl]
  rw [show elementName "tagDIV" none = "div" from rfl]
  rw [show spacesStr 0 = "" from rfl]
  refine congrArg Except.ok (stringExt _ _ ?_)
  simp only [String.data_append]
  simp

/-- Claim C8, amended: compiling a container with children W1 and W2 yields
requirement lists equal to the container's own followed by W1's followed by
W2's, in that exact order, and a code string that splices the children's
rendered strings in child order — each child's code indented by two spaces
per line, the children separated by a newline — inside the container's div
template (so a single-line child string appears verbatim, while a multi-line
one appears with its lines indented, see the counterexample). -/
theorem container_compile_order :
    ∀ (g : Ctx) (sreqs : List ScriptRequirement) (streqs : List StyleRequirement)
      (w1 w2 : Component) (h1 h2 : HTMLData),
      w1.compile g = .ok h1 → w2.compile g = .ok h2 →
      Component.compile (.container sreqs streqs [w1, w2]) g
        = .ok ⟨"<div>" ++ "\n" ++ indentLines 2 h1.code ++ "\n" ++ indentLines 2 h2.code
            ++ "\n" ++ "</div>",
          sreqs ++ h1.script_requirements ++ h2.script_requirements,
          streqs ++ h1.style_requirements ++ h2.style_requirements⟩ := by
  intro g sreqs streqs w1 w2 h1 h2 hc1 hc2
  rw [Component.compile, Component.compileList, hc1, Component.compileList, hc2,
    Component.compileList]
  simp only [except_pure_def, except_bind_ok]
  simp only [List.map_cons, List.map_nil, List.flatten_cons, List.flatten_nil, List.append_nil]
  rw [container_template_render g h1.code h2.code]
  simp only [except_pure_def, except_bind_ok]
  rw [List.append_assoc, List.append_assoc]

/-- Claim C8, amended, witness: a container with one own script requirement
and two widget children, each declaring one script requirement, compiles to
the spliced div code with the requirement lists in the order own, first
child, second child. -/
theorem container_compile_order_witness :
    Component.compile
        (.container [⟨"own", "/own.js", 50, .ASYNC_DEFER, []⟩] []
          [.widget [⟨"w1", "/w1.js", 50, .ASYNC_DEFER, []⟩] [] "x",
           .widget [⟨"w2", "/w2.js", 50, .ASYNC_DEFER, []⟩] [] "y"]) []
      = .ok ⟨"<div>\n  <span>\n    x\n  </span>\n  <span>\n    y\n  </span>\n</div>",
          [⟨"own", "/own.js", 50, .ASYNC_DEFER, []⟩, ⟨"w1", "/w1.js", 50, .ASYNC_DEFER, []⟩,
           ⟨"w2", "/w2.js", 50, .ASYNC_DEFER, []⟩], []⟩ := by
  have h := container_compile_order [] [⟨"own", "/own.js", 50, .ASYNC_DEFER, []⟩] []
    (.widget [⟨"w1", "/w1.js", 50, .ASYNC_DEFER, []⟩] [] "x")
    (.widget [⟨"w2", "/w2.js", 50, .ASYNC_DEFER, []⟩] [] "y")
    ⟨"<span>\n  x\n</span>", [⟨"w1", "/w1.js", 50, .ASYNC_DEFER, []⟩], []⟩
    ⟨"<span>\n  y\n</span>", [⟨"w2", "/w2.js", 50, .ASYNC_DEFER, []⟩], []⟩
    rfl rfl
  exact h.trans rfl

/-- Helper: newline-freeness of a concatenation splits into its parts. -/
theorem hasNl_append (a b : String) : hasNl (a ++ b) = (hasNl a || hasNl b) := by
  rw [hasNl, hasNl, hasNl, String.data_append, List.any_append]

/-- Helper: a string is newline-free exactly when the newline character is not
among its characters. -/
theorem hasNl_false_iff (s : String) : hasNl s = false ↔ '\n' ∉ s.data := by
  rw [hasNl, List.any_eq_false]
  constructor
  · intro h hc
    have := h '\n' hc
    simp at this
  · intro h x hx hxe
    simp only [decide_eq_true_eq] at hxe
    rw [hxe] at hx
    exact h hx

/-- Helper: every character of a replaceChar result comes from the replacement
or from the input. -/
theorem replaceChar_mem (c : Char) (rep : List Char) :
    ∀ (s : List Char) (x : Char), x ∈ replaceChar c rep s → x ∈ rep ∨ x ∈ s := by
  intro s
  induction s with
  | nil => intro x hx; rw [replaceChar] at hx; exact absurd hx (by simp)
  | cons y t ih =>
    intro x hx
    rw [replaceChar] at hx
    by_cases hy : y = c
    · rw [if_pos hy] at hx
      rcases List.mem_append.mp hx with h | h
      · exact Or.inl h
      · rcases ih x h with h' | h'
        · exact Or.inl h'
        · exact Or.inr (List.mem_cons_of_mem y h')
    · rw [if_neg hy] at hx
      rcases List.mem_cons.mp hx with h | h
      · exact Or.inr (h ▸ List.mem_cons_self y t)
      · rcases ih x h with h' | h'
        · exact Or.inl h'
        · exact Or.inr (List.mem_cons_of_mem y h')

/-- Helper: replacing every occurrence of c by a replacement not containing c
eliminates c. -/
theorem replaceChar_elim (c : Char) (rep : List Char) (hrep : c ∉ rep) :
    ∀ (s : List Char), c ∉ replaceChar c rep s := by
  intro s
  induction s with
  | nil => rw [replaceChar]; simp
  | cons y t ih =>
    rw [replaceChar]
    by_cases hy : y = c
    · rw [if_pos hy]
      intro hx
      rcases List.mem_append.mp hx with h | h
      · exact hrep h
      · exact ih h
    · rw [if_neg hy]
      intro hx
      rcases List.mem_cons.mp hx with h | h
      · exact hy (h.symm)
      · exact ih h

/-- Helper: replaceChar with a newline-free replacement preserves
newline-freeness. -/
theorem replaceChar_noNl (c : Char) (rep : List Char) (hrep : '\n' ∉ rep)
    (s : List Char) (hs : '\n' ∉ s) : '\n' ∉ replaceChar c rep s := by
  intro hx
  rcases replaceChar_mem c rep s '\n' hx with h | h
  · exact hrep h
  · exact hs h

/-- Helper: HTML escaping preserves newline-freeness. -/
theorem escape_html_text_noNl (s : String) (hs : '\n' ∉ s.data) :
    '\n' ∉ (escape_html_text s).data := by
  rw [escape_html_text]
  refine replaceChar_noNl _ _ (by decide) _ ?_
  refine replaceChar_noNl _ _ (by decide) _ ?_
  refine replaceChar_noNl _ _ (by decide) _ ?_
  refine replaceChar_noNl _ _ (by decide) _ ?_
  exact replaceChar_noNl _ _ (by decide) _ hs

/-- Helper: the repr escaper eliminates newlines from any string. -/
theorem reprEscape_noNl (s : String) : '\n' ∉ (reprEscape s).data := by
  rw [reprEscape]
  refine replaceChar_noNl _ _ (by decide) _ ?_
  refine replaceChar_noNl _ _ (by decide) _ ?_
  refine replaceChar_noNl _ _ (by decide) _ ?_
  exact replaceChar_elim '\n' ['\\', 'n'] (by decide) _

/-- Helper: the JSON string escaper eliminates newlines from any string. -/
theorem jsonEscapeStr_noNl (s : String) : '\n' ∉ (jsonEscapeStr s).data := by
  rw [jsonEscapeStr]
  refine replaceChar_noNl _ _ (by decide) _ ?_
  refine replaceChar_noNl _ _ (by decide) _ ?_
  exact replaceChar_elim '\n' ['\\', 'n'] (by decide) _

/-- Helper: an indentation run contains no newline. -/
theorem spacesStr_noNl (n : Nat) : '\n' ∉ (spacesStr n).data := by
  rw [spacesStr]
  intro h
  have := List.eq_of_mem_replicate h
  exact absurd this (by decide)

/-- Helper: a decimal digit character is never a newline. -/
theorem digitChar10_ne_nl (r : Nat) : digitChar10 r ≠ '\n' := by
  rw [digitChar10]
  split_ifs <;> decide

/-- Helper: the digit accumulator only ever adds digit characters. -/
theorem natDigitsAux_noNl : ∀ (fuel n : Nat) (acc : List Char),
    '\n' ∉ acc → '\n' ∉ natDigitsAux fuel n acc := by
  intro fuel
  induction fuel with
  | zero => intro n acc h; rw [natDigitsAux]; exact h
  | succ f ih =>
    intro n acc h
    rw [natDigitsAux]
    by_cases hn : n < 10
    · rw [if_pos hn]
      intro hx
      rcases List.mem_cons.mp hx with h' | h'
      · exact digitChar10_ne_nl n h'.symm
      · exact h h'
    · rw [if_neg hn]
      refine ih (n / 10) _ ?_
      intro hx
      rcases List.mem_cons.mp hx with h' | h'
      · exact digitChar10_ne_nl (n % 10) h'.symm
      · exact h h'

/-- Helper: the decimal rendering of an integer contains no newline. -/
theorem pyIntRepr_noNl (n : Int) : '\n' ∉ (pyIntRepr n).data := by
  cases n with
  | ofNat m =>
    rw [pyIntRepr]
    exact natDigitsAux_noNl (m + 1) m [] (by simp)
  | negSucc m =>
    rw [pyIntRepr]
    intro hx
    rcases List.mem_cons.mp hx with h | h
    · exact absurd h (by decide)
    · exact natDigitsAux_noNl (m + 2) (m + 1) [] (by simp) h

/-- Helper: joining newline-free fragments with a newline-free separator is
newline-free. -/
theorem joinSep_noNl (sep : String) (hsep : '\n' ∉ sep.data) :
    ∀ (xs : List String), (∀ x ∈ xs, '\n' ∉ x.data) → '\n' ∉ (joinSep sep xs).data := by
  intro xs
  induction xs with
  | nil => intro _; rw [joinSep]; simp
  | cons x rest ih =>
    intro h
    cases rest with
    | nil =>
      rw [joinSep]
      exact h x (by simp)
    | cons y t =>
      rw [joinSep, String.data_append, String.data_append]
      intro hx
      rcases List.mem_append.mp hx with h' | h'
      · rcases List.mem_append.mp h' with h'' | h''
        · exact h x (by simp) h''
        · exact hsep h''
      · exact ih (fun z hz => h z (List.mem_cons_of_mem x hz)) h'

/-- Helper: left-stripping keeps only characters of the input. -/
theorem stripLeft_sub : ∀ (l : List Char) (x : Char), x ∈ stripLeft l → x ∈ l := by
  intro l
  induction l with
  | nil => intro x hx; rw [stripLeft] at hx; exact absurd hx (by simp)
  | cons c t ih =>
    intro x hx
    rw [stripLeft] at hx
    by_cases hc : c.isWhitespace
    · rw [if_pos hc] at hx
      exact List.mem_cons_of_mem c (ih x hx)
    · rw [if_neg hc] at hx
      exact hx

/-- Helper: stripping preserves newline-freeness. -/
theorem pyStrip_noNl (s : String) (hs : '\n' ∉ s.data) : '\n' ∉ (pyStrip s).data := by
  rw [pyStrip]
  intro hx
  have h1 := List.mem_reverse.mp hx
  have h2 := stripLeft_sub _ _ h1
  have h3 := List.mem_reverse.mp h2
  have h4 := stripLeft_sub _ _ h3
  exact hs h4

mutual

/-- Helper: a repr never contains a newline (repr escapes them). -/
def pyRepr_noNl : ∀ (v : PyVal), '\n' ∉ (pyRepr v).data
  | .vnone => by rw [pyRepr]; decide
  | .vbool b => by rw [pyRepr]; cases b <;> decide
  | .vstr s => by
      rw [pyRepr, String.data_append, String.data_append]
      intro hx
      rcases List.mem_append.mp hx with h | h
      · rcases List.mem_append.mp h with h' | h'
        · exact absurd h' (by decide)
        · exact reprEscape_noNl s h'
      · exact absurd h (by decide)
  | .vint n => by rw [pyRepr]; exact pyIntRepr_noNl n
  | .vlist xs => by
      rw [pyRepr, String.data_append, String.data_append]
      intro hx
      rcases List.mem_append.mp hx with h | h
      · rcases List.mem_append.mp h with h' | h'
        · exact absurd h' (by decide)
        · exact joinSep_noNl ", " (by decide) (pyReprList xs) (pyReprList_noNl xs) h'
      · exact absurd h (by decide)
  | .vdict kvs => by
      rw [pyRepr, String.data_append, String.data_append]
      intro hx
      rcases List.mem_append.mp hx with h | h
      · rcases List.mem_append.mp h with h' | h'
        · exact absurd h' (by decide)
        · exact joinSep_noNl ", " (by decide) (pyReprDict kvs) (pyReprDict_noNl kvs) h'
      · exact absurd h (by decide)

/-- Helper: list-member reprs never contain a newline. -/
def pyReprList_noNl : ∀ (xs : List PyVal), ∀ x ∈ pyReprList xs, '\n' ∉ x.data
  | [] => by rw [pyReprList]; simp
  | v :: rest => by
      rw [pyReprList]
      intro x hx
      rcases List.mem_cons.mp hx with h | h
      · rw [h]; exact pyRepr_noNl v
      · exact pyReprList_noNl rest x h

/-- Helper: dict-entry reprs never contain a newline. -/
def pyReprDict_noNl : ∀ (kvs : List (String × PyVal)), ∀ x ∈ pyReprDict kvs, '\n' ∉ x.data
  | [] => by rw [pyReprDict]; simp
  | (k, v) :: rest => by
      rw [pyReprDict]
      intro x hx
      rcases List.mem_cons.mp hx with h | h
      · rw [h]
        rw [String.data_append, String.data_append, String.data_append, String.data_append]
        intro hc
        rcases List.mem_append.mp hc with h1 | h1
        · rcases List.mem_append.mp h1 with h2 | h2
          · rcases List.mem_append.mp h2 with h3 | h3
            · rcases List.mem_append.mp h3 with h4 | h4
              · exact absurd h4 (by decide)
              · exact reprEscape_noNl k h4
            · exact absurd h3 (by decide)
          · exact absurd h2 (by decide)
        · exact pyRepr_noNl v h1
      · exact pyReprDict_noNl rest x h

end

/-- Helper: the str of a newline-free context value is newline-free. -/
theorem pyStr_noNl (v : PyVal) (h : pyNlFree v = true) : '\n' ∉ (pyStr v).data := by
  cases v with
  | vstr s =>
    rw [pyNlFree] at h
    rw [pyStr]
    exact (hasNl_false_iff s).mp (by revert h; cases hasNl s <;> simp)
  | vbool b => cases b <;> (rw [pyStr]; decide)
  | vint n => exact pyIntRepr_noNl n
  | vnone => rw [pyStr]; decide
  | vlist xs => exact pyRepr_noNl (.vlist xs)
  | vdict kvs => exact pyRepr_noNl (.vdict kvs)

mutual

/-- Helper: a JSON dump never contains a newline (dumps escapes them). -/
def jsonDumps_noNl : ∀ (v : PyVal), '\n' ∉ (jsonDumps v).data
  | .vnone => by rw [jsonDumps]; decide
  | .vbool b => by rw [jsonDumps]; cases b <;> decide
  | .vint n => by rw [jsonDumps]; exact pyIntRepr_noNl n
  | .vstr s => by
      rw [jsonDumps, String.data_append, String.data_append]
      intro hx
      rcases List.mem_append.mp hx with h | h
      · rcases List.mem_append.mp h with h' | h'
        · exact absurd h' (by decide)
        · exact jsonEscapeStr_noNl s h'
      · exact absurd h (by decide)
  | .vlist xs => by
      rw [jsonDumps, String.data_append, String.data_append]
      intro hx
      rcases List.mem_append.mp hx with h | h
      · rcases List.mem_append.mp h with h' | h'
        · exact absurd h' (by decide)
        · exact joinSep_noNl ", " (by decide) (jsonDumpsList xs) (jsonDumpsList_noNl xs) h'
      · exact absurd h (by decide)
  | .vdict kvs => by
      rw [jsonDumps, String.data_append, String.data_append]
      intro hx
      rcases List.mem_append.mp hx with h | h
      · rcases List.mem_append.mp h with h' | h'
        · exact absurd h' (by decide)
        · exact joinSep_noNl ", " (by decide) (jsonDumpsDict kvs) (jsonDumpsDict_noNl kvs) h'
      · exact absurd h (by decide)

/-- Helper: JSON dumps of list members never contain a newline. -/
def jsonDumpsList_noNl : ∀ (xs : List PyVal), ∀ x ∈ jsonDumpsList xs, '\n' ∉ x.data
  | [] => by rw [jsonDumpsList]; simp
  | v :: rest => by
      rw [jsonDumpsList]
      intro x hx
      rcases List.mem_cons.mp hx with h | h
      · rw [h]; exact jsonDumps_noNl v
      · exact jsonDumpsList_noNl rest x h

/-- Helper: JSON dumps of dict entries never contain a newline. -/
def jsonDumpsDict_noNl : ∀ (kvs : List (String × PyVal)), ∀ x ∈ jsonDumpsDict kvs, '\n' ∉ x.data
  | [] => by rw [jsonDumpsDict]; simp
  | (k, v) :: rest => by
      rw [jsonDumpsDict]
      intro x hx
      rcases List.mem_cons.mp hx with h | h
      · rw [h]
        rw [String.data_append, String.data_append, String.data_append]
        intro hc
        rcases List.mem_append.mp hc with h1 | h1
        · rcases List.mem_append.mp h1 with h2 | h2
          · rcases List.mem_append.mp h2 with h3 | h3
            · exact absurd h3 (by decide)
            · exact jsonEscapeStr_noNl k h3
          · exact absurd h2 (by decide)
        · exact jsonDumps_noNl v h1
      · exact jsonDumpsDict_noNl rest x h

end

/-- Helper: a value fetched from a newline-free dict with a newline-free
default is newline-free. -/
theorem pyDictGet_nlFree (d : List (String × PyVal)) (k : String) (dflt : PyVal)
    (hd : pyNlFreeDict d = true) (hdflt : pyNlFree dflt = true) :
    pyNlFree (pyDictGet d k dflt) = true := by
  induction d with
  | nil => rw [pyDictGet]; exact hdflt
  | cons kv rest ih =>
    obtain ⟨k0, v0⟩ := kv
    rw [pyNlFreeDict] at hd
    simp only [Bool.and_eq_true] at hd
    rw [pyDictGet]
    by_cases hk : k0 == k
    · rw [if_pos hk]
      exact hd.1.2
    · rw [if_neg hk]
      exact ih hd.2

/-- Helper: a successful dot-path resolution on newline-free inputs yields a
newline-free value. -/
theorem get_dict_nlFree (segs : List String) :
    ∀ (obj : PyVal) (last : String) (dflt : PyVal) (v : PyVal),
      pyNlFree obj = true → pyNlFree dflt = true →
      (do
        let o ← segs.foldlM (fun o k => pyGetMethod o k (PyVal.vdict [])) obj
        pyGetMethod o last dflt) = .ok v →
      pyNlFree v = true := by
  induction segs with
  | nil =>
    intro obj last dflt v hobj hdflt h
    simp only [List.foldlM_nil, except_pure_def, except_bind_ok] at h
    cases obj with
    | vdict d =>
      rw [pyGetMethod] at h
      injection h with h
      rw [← h]
      exact pyDictGet_nlFree d last dflt (by rw [pyNlFree] at hobj; exact hobj) hdflt
    | vnone => exact Except.noConfusion h
    | vbool b => exact Except.noConfusion h
    | vstr s => exact Except.noConfusion h
    | vint n => exact Except.noConfusion h
    | vlist xs => exact Except.noConfusion h
  | cons k ks ih =>
    intro obj last dflt v hobj hdflt h
    simp only [List.foldlM_cons] at h
    cases obj with
    | vdict d =>
      rw [show pyGetMethod (.vdict d) k (PyVal.vdict []) = .ok (pyDictGet d k (.vdict [])) from rfl] at h
      rw [except_bind_ok] at h
      exact ih (pyDictGet d k (.vdict [])) last dflt v
        (pyDictGet_nlFree d k (.vdict []) (by rw [pyNlFree] at hobj; exact hobj) (by rw [pyNlFree]; rfl))
        hdflt h
    | vnone => exact Except.noConfusion h
    | vbool b => exact Except.noConfusion h
    | vstr s => exact Except.noConfusion h
    | vint n => exact Except.noConfusion h
    | vlist xs => exact Except.noConfusion h

/-- Helper: a successful get_dict_subattribute on newline-free inputs yields a
newline-free value. -/
theorem get_dict_subattribute_nlFree (obj : PyVal) (key : String) (dflt : PyVal) (v : PyVal)
    (hobj : pyNlFree obj = true) (hdflt : pyNlFree dflt = true)
    (h : get_dict_subattribute obj key dflt = .ok v) : pyNlFree v = true := by
  rw [get_dict_subattribute] at h
  exact get_dict_nlFree (pySplitDot key).dropLast obj ((pySplitDot key).getLastD "") dflt v
    hobj hdflt h

mutual

/-- Helper: a newline-free resolved context value renders, under
whitespace-sensitivity, to a newline-free string. -/
def renderResolved_noNl : ∀ (v : PyVal) (i : Nat), pyNlFree v = true →
    '\n' ∉ (renderResolved v i true).data
  | .vstr s, i, h => by
      rw [renderResolved]
      rw [show renderStringItem s i true = s from rfl]
      rw [pyNlFree] at h
      exact (hasNl_false_iff s).mp (by revert h; cases hasNl s <;> simp)
  | .vlist xs, i, h => by
      rw [renderResolved]
      exact renderResolvedList_noNl true xs i (by rw [pyNlFree] at h; exact h)
  | .vdict kvs, i, h => pyStr_noNl (.vdict kvs) h
  | .vnone, i, h => pyStr_noNl .vnone h
  | .vbool b, i, h => pyStr_noNl (.vbool b) h
  | .vint n, i, h => pyStr_noNl (.vint n) h

/-- Helper: a newline-free resolved list renders, under
whitespace-sensitivity, with no separators and no newlines. -/
def renderResolvedList_noNl : ∀ (isFirst : Bool) (xs : List PyVal) (i : Nat),
    pyNlFreeList xs = true → '\n' ∉ (renderResolvedList isFirst xs i true).data
  | _, [], i, h => by rw [renderResolvedList]; decide
  | isFirst, x :: rest, i, h => by
      rw [renderResolvedList]
      rw [pyNlFreeList] at h
      simp only [Bool.and_eq_true] at h
      rw [show (if isFirst || true then ("" : String) else "\n") = "" from by simp]
      rw [String.data_append, String.data_append]
      intro hx
      rcases List.mem_append.mp hx with h1 | h1
      · rcases List.mem_append.mp h1 with h2 | h2
        · exact absurd h2 (by decide)
        · exact renderResolved_noNl x i h.1 h2
      · exact renderResolvedList_noNl false rest i h.2 h1

end

/-- Helper: under whitespace-sensitivity the tag wrapper ignores the indent
argument entirely. -/
theorem renderTagWrap_indep (nm : String) (sc esc : Bool) (attrs dat : List (String × AttrValue))
    (g l : Ctx) (i j : Nat) (hc : Bool) (inner : String) :
    renderTagWrap nm sc esc attrs dat g l i true hc inner
      = renderTagWrap nm sc esc attrs dat g l j true hc inner := by
  rw [renderTagWrap, renderTagWrap]
  simp only [eq_self_iff_true, if_true, ite_true]

mutual

/-- Helper: under whitespace-sensitivity a resolved context value renders
independently of the indent argument. -/
def renderResolved_indep : ∀ (v : PyVal) (i j : Nat),
    renderResolved v i true = renderResolved v j true
  | .vstr s, i, j => rfl
  | .vlist xs, i, j => by
      rw [renderResolved, renderResolved]
      exact renderResolvedList_indep true xs i j
  | .vdict kvs, i, j => rfl
  | .vnone, i, j => rfl
  | .vbool b, i, j => rfl
  | .vint n, i, j => rfl

/-- Helper: under whitespace-sensitivity a resolved list renders independently
of the indent argument. -/
def renderResolvedList_indep : ∀ (isFirst : Bool) (xs : List PyVal) (i j : Nat),
    renderResolvedList isFirst xs i true = renderResolvedList isFirst xs j true
  | _, [], i, j => rfl
  | isFirst, x :: rest, i, j => by
      rw [renderResolvedList, renderResolvedList]
      rw [renderResolved_indep x i j, renderResolvedList_indep false rest i j]

end

set_option maxHeartbeats 2000000 in
mutual

/-- Helper: under whitespace-sensitivity an element renders independently of
the indent argument (no indentation is ever applied in its subtree). -/
def render_indep : ∀ (e : Element) (g l : Ctx) (i j : Nat),
    Element.render e g l i true = Element.render e g l j true
  | .mk cn ov .normal sc esc wss attrs dat children, g, l, i, j => by
      rw [Element.render, Element.render]
      cases hch : children.isEmpty with
      | true =>
        simp only [hch, if_true, ite_true]
        rw [except_pure_def, except_bind_ok, except_bind_ok]
        exact renderTagWrap_indep (elementName cn ov) sc esc attrs dat g l i j
          (!true) ""
      | false =>
        simp only [hch, Bool.false_eq_true, if_false, ite_false]
        rw [show (true || wss) = true from rfl]
        rw [renderListHead_indep children g l (i + INDENT) (j + INDENT)]
        have hf : (fun inner => renderTagWrap (elementName cn ov) sc esc attrs dat g l i true (!false) inner)
            = (fun inner => renderTagWrap (elementName cn ov) sc esc attrs dat g l j true (!false) inner) :=
          funext (fun inner => renderTagWrap_indep (elementName cn ov) sc esc attrs dat g l i j
            (!false) inner)
        rw [hf]
  | .mk cn ov .page sc esc wss attrs dat children, g, l, i, j => by
      rw [Element.render, Element.render]
      cases hch : children.isEmpty with
      | true =>
        simp only [hch, if_true, ite_true]
        rw [except_pure_def, except_bind_ok, except_bind_ok]
        rw [renderTagWrap_indep (elementName cn ov) sc esc attrs dat g l i j
          (!true) ""]
      | false =>
        simp only [hch, Bool.false_eq_true, if_false, ite_false]
        rw [show (true || wss) = true from rfl]
        rw [renderListHead_indep children g l (i + INDENT) (j + INDENT)]
        have hf : (fun x => renderTagWrap (elementName cn ov) sc esc attrs dat g l i true (!false) x
              >>= fun s => pure ("<!DOCTYPE html>\n" ++ s))
            = (fun x => renderTagWrap (elementName cn ov) sc esc attrs dat g l j true (!false) x
              >>= fun s => pure ("<!DOCTYPE html>\n" ++ s)) :=
          funext (fun x => by
            rw [renderTagWrap_indep (elementName cn ov) sc esc attrs dat g l i j
              (!false) x])
        rw [hf]
  | .mk cn ov (.jsond payload) sc esc wss attrs dat ch, g, l, i, j => by
      rw [Element.render, Element.render]
      rw [show renderStringItem (jsonDumps payload) (i + INDENT) (true || wss) = jsonDumps payload from rfl]
      rw [show renderStringItem (jsonDumps payload) (j + INDENT) (true || wss) = jsonDumps payload from rfl]
      exact renderTagWrap_indep (elementName cn ov) sc esc attrs dat g l i j true (jsonDumps payload)
  | .mk cn ov (.raw code) sc esc wss attrs dat ch, g, l, i, j => by
      rw [Element.render, Element.render]
      have hf : (fun s => pure (renderStringItem (if esc then escape_html_text s else s) i true)
            : String → Except PyErr String)
          = (fun s => pure (renderStringItem (if esc then escape_html_text s else s) j true)) :=
        funext (fun s => rfl)
      rw [hf]

/-- Helper: under whitespace-sensitivity an item renders independently of the
indent argument. -/
def renderItem_indep : ∀ (it : Item) (g l : Ctx) (i j : Nat),
    renderItem it g l i true = renderItem it g l j true
  | .elem e, g, l, i, j => render_indep e g l i j
  | .text s, g, l, i, j => rfl
  | .seq xs, g, l, i, j => renderListHead_indep xs g l i j
  | .var isG k dflt, g, l, i, j => by
      rw [renderItem, renderItem]
      have hf : (fun v => pure (renderResolved v i true) : PyVal → Except PyErr String)
          = (fun v => pure (renderResolved v j true)) :=
        funext (fun v => congrArg pure (renderResolved_indep v i j))
      rw [hf]

/-- Helper: under whitespace-sensitivity the first-position list loop renders
independently of the indent argument. -/
def renderListHead_indep : ∀ (xs : List Item) (g l : Ctx) (i j : Nat),
    renderListHead xs g l i true = renderListHead xs g l j true
  | [], g, l, i, j => rfl
  | x :: rest, g, l, i, j => by
      rw [renderListHead, renderListHead]
      rw [renderItem_indep x g l i j, renderListTail_indep rest g l i j]

/-- Helper: under whitespace-sensitivity the later-position list loop renders
independently of the indent argument. -/
def renderListTail_indep : ∀ (xs : List Item) (g l : Ctx) (i j : Nat),
    renderListTail xs g l i true = renderListTail xs g l j true
  | [], g, l, i, j => rfl
  | x :: rest, g, l, i, j => by
      rw [renderListTail, renderListTail]
      rw [renderItem_indep x g l i j, renderListTail_indep rest g l i j]

end

/-- Helper: a concatenation of newline-free strings is newline-free. -/
theorem append_noNl (a b : String) (ha : '\n' ∉ a.data) (hb : '\n' ∉ b.data) :
    '\n' ∉ (a ++ b).data := by
  rw [String.data_append]
  intro hx
  rcases List.mem_append.mp hx with h | h
  · exact ha h
  · exact hb h

/-- Helper: a true negated hasNl means the newline is not among the
characters. -/
theorem bnot_hasNl (s : String) (h : (!hasNl s) = true) : '\n' ∉ s.data :=
  (hasNl_false_iff s).mp (by revert h; cases hasNl s <;> simp)

/-- Helper: lower-casing a capital never produces a newline. -/
theorem asciiUpperToLower_ne_nl (c : Char) (h : c ≠ '\n') : asciiUpperToLower c ≠ '\n' := by
  rw [asciiUpperToLower]
  by_cases h1 : c = 'A'
  · rw [if_pos h1]; decide
  rw [if_neg h1]
  by_cases h2 : c = 'B'
  · rw [if_pos h2]; decide
  rw [if_neg h2]
  by_cases h3 : c = 'C'
  · rw [if_pos h3]; decide
  rw [if_neg h3]
  by_cases h4 : c = 'D'
  · rw [if_pos h4]; decide
  rw [if_neg h4]
  by_cases h5 : c = 'E'
  · rw [if_pos h5]; decide
  rw [if_neg h5]
  by_cases h6 : c = 'F'
  · rw [if_pos h6]; decide
  rw [if_neg h6]
  by_cases h7 : c = 'G'
  · rw [if_pos h7]; decide
  rw [if_neg h7]
  by_cases h8 : c = 'H'
  · rw [if_pos h8]; decide
  rw [if_neg h8]
  by_cases h9 : c = 'I'
  · rw [if_pos h9]; decide
  rw [if_neg h9]
  by_cases h10 : c = 'J'
  · rw [if_pos h10]; decide
  rw [if_neg h10]
  by_cases h11 : c = 'K'
  · rw [if_pos h11]; decide
  rw [if_neg h11]
  by_cases h12 : c = 'L'
  · rw [if_pos h12]; decide
  rw [if_neg h12]
  by_cases h13 : c = 'M'
  · rw [if_pos h13]; decide
  rw [if_neg h13]
  by_cases h14 : c = 'N'
  · rw [if_pos h14]; decide
  rw [if_neg h14]
  by_cases h15 : c = 'O'
  · rw [if_pos h15]; decide
  rw [if_neg h15]
  by_cases h16 : c = 'P'
  · rw [if_pos h16]; decide
  rw [if_neg h16]
  by_cases h17 : c = 'Q'
  · rw [if_pos h17]; decide
  rw [if_neg h17]
  by_cases h18 : c = 'R'
  · rw [if_pos h18]; decide
  rw [if_neg h18]
  by_cases h19 : c = 'S'
  · rw [if_pos h19]; decide
  rw [if_neg h19]
  by_cases h20 : c = 'T'
  · rw [if_pos h20]; decide
  rw [if_neg h20]
  by_cases h21 : c = 'U'
  · rw [if_pos h21]; decide
  rw [if_neg h21]
  by_cases h22 : c = 'V'
  · rw [if_pos h22]; decide
  rw [if_neg h22]
  by_cases h23 : c = 'W'
  · rw [if_pos h23]; decide
  rw [if_neg h23]
  by_cases h24 : c = 'X'
  · rw [if_pos h24]; decide
  rw [if_neg h24]
  by_cases h25 : c = 'Y'
  · rw [if_pos h25]; decide
  rw [if_neg h25]
  by_cases h26 : c = 'Z'
  · rw [if_pos h26]; decide
  rw [if_neg h26]
  exact h

/-- Helper: the key-encoding scan introduces only hyphens and lower-cased
capitals, so it preserves newline-freeness. -/
theorem encodeKeyAux_noNl : ∀ (l : List Char) (prev : Char), '\n' ∉ l →
    '\n' ∉ encodeKeyAux prev l := by
  intro l
  induction l with
  | nil => intro prev h; rw [encodeKeyAux]; simp
  | cons c t ih =>
    intro prev h
    have hc : c ≠ '\n' := fun he => h (he ▸ List.mem_cons_self c t)
    have ht : '\n' ∉ t := fun hm => h (List.mem_cons_of_mem c hm)
    rw [encodeKeyAux]
    by_cases hcase : isAsciiLowerOrDigit prev && isAsciiUpper c
    · rw [if_pos hcase]
      intro hx
      rcases List.mem_cons.mp hx with h1 | h1
      · exact absurd h1 (by decide)
      · rcases List.mem_cons.mp h1 with h2 | h2
        · exact asciiUpperToLower_ne_nl c hc h2.symm
        · exact ih c ht h2
    · rw [if_neg hcase]
      intro hx
      rcases List.mem_cons.mp hx with h1 | h1
      · exact hc h1.symm
      · exact ih c ht h1

/-- Helper: attribute-key encoding preserves newline-freeness. -/
theorem encode_attribute_key_noNl (key : String) (h : '\n' ∉ key.data) :
    '\n' ∉ (encode_attribute_key key).data := by
  cases hk : key.data with
  | nil => rw [encode_attribute_key, hk]; simp
  | cons c t =>
    rw [encode_attribute_key, hk]
    rw [hk] at h
    have hc : c ≠ '\n' := fun he => h (he ▸ List.mem_cons_self c t)
    have ht : '\n' ∉ t := fun hm => h (List.mem_cons_of_mem c hm)
    intro hx
    rcases List.mem_cons.mp hx with h1 | h1
    · exact hc h1.symm
    · exact encodeKeyAux_noNl t c ht h1

/-- Helper: the generic stringify branch of the attribute encoder is
newline-free on newline-free inputs. -/
theorem encodeAttrPyOther_noNl (key : String) (hk : '\n' ∉ key.data) (w : PyVal)
    (hw : pyNlFree w = true) :
    '\n' ∉ ((if pyStrip (pyStr w) = "" then ("" : String)
      else pyStrip (key ++ "=\x27" ++ escape_html_text (pyStrip (pyStr w)) ++ "\x27"))).data := by
  by_cases hv : pyStrip (pyStr w) = ""
  · rw [if_pos hv]; simp
  · rw [if_neg hv]
    refine pyStrip_noNl _ ?_
    refine append_noNl _ _ (append_noNl _ _ (append_noNl _ _ hk (by decide)) ?_) (by decide)
    exact escape_html_text_noNl _ (pyStrip_noNl _ (pyStr_noNl w hw))

mutual

/-- Helper: the attribute encoder on resolved context values is newline-free
on newline-free inputs. -/
def encodeAttrPy_noNl : ∀ (key : String) (v : PyVal) (concatenator : String),
    '\n' ∉ key.data → '\n' ∉ concatenator.data → pyNlFree v = true →
    '\n' ∉ (encodeAttrPy key v concatenator).data
  | key, .vdict items, concatenator, hk, hc, hv => by
      rw [encodeAttrPy]
      refine pyStrip_noNl _ ?_
      exact joinSep_noNl " " (by decide) _
        (encodeAttrPyDict_noNl key items concatenator hk hc (by rw [pyNlFree] at hv; exact hv))
  | key, .vlist items, concatenator, hk, hc, hv => by
      rw [encodeAttrPy]
      refine pyStrip_noNl _ ?_
      exact joinSep_noNl " " (by decide) _
        (encodeAttrPyList_noNl key 0 items concatenator hk hc (by rw [pyNlFree] at hv; exact hv))
  | key, .vbool b, concatenator, hk, hc, hv => by
      rw [encodeAttrPy]
      cases b
      · simp
      · simp only [if_true, ite_true]
        exact pyStrip_noNl key hk
  | key, .vstr s0, concatenator, hk, hc, hv => encodeAttrPyOther_noNl key hk (.vstr s0) hv
  | key, .vint n, concatenator, hk, hc, hv => encodeAttrPyOther_noNl key hk (.vint n) hv
  | key, .vnone, concatenator, hk, hc, hv => encodeAttrPyOther_noNl key hk .vnone hv

/-- Helper: flattened resolved dict fragments are newline-free on newline-free
inputs. -/
def encodeAttrPyDict_noNl : ∀ (key : String) (items : List (String × PyVal)) (concatenator : String),
    '\n' ∉ key.data → '\n' ∉ concatenator.data → pyNlFreeDict items = true →
    ∀ x ∈ encodeAttrPyDict key items concatenator, '\n' ∉ x.data
  | key, [], concatenator, hk, hc, hv => by rw [encodeAttrPyDict]; simp
  | key, (sk, sv) :: rest, concatenator, hk, hc, hv => by
      rw [encodeAttrPyDict]
      rw [pyNlFreeDict] at hv
      simp only [Bool.and_eq_true] at hv
      intro x hx
      rcases List.mem_cons.mp hx with h | h
      · rw [h]
        exact encodeAttrPy_noNl (key ++ concatenator ++ sk) sv concatenator
          (append_noNl _ _ (append_noNl _ _ hk hc) (bnot_hasNl sk hv.1.1)) hc hv.1.2
      · exact encodeAttrPyDict_noNl key rest concatenator hk hc hv.2 x h

/-- Helper: flattened resolved list fragments are newline-free on newline-free
inputs. -/
def encodeAttrPyList_noNl : ∀ (key : String) (idx : Nat) (items : List PyVal) (concatenator : String),
    '\n' ∉ key.data → '\n' ∉ concatenator.data → pyNlFreeList items = true →
    ∀ x ∈ encodeAttrPyList key idx items concatenator, '\n' ∉ x.data
  | key, idx, [], concatenator, hk, hc, hv => by rw [encodeAttrPyList]; simp
  | key, idx, v :: rest, concatenator, hk, hc, hv => by
      rw [encodeAttrPyList]
      rw [pyNlFreeList] at hv
      simp only [Bool.and_eq_true] at hv
      intro x hx
      rcases List.mem_cons.mp hx with h | h
      · rw [h]
        exact encodeAttrPy_noNl (key ++ concatenator ++ pyIntRepr (Int.ofNat idx)) v concatenator
          (append_noNl _ _ (append_noNl _ _ hk hc) (pyIntRepr_noNl _)) hc hv.1
      · exact encodeAttrPyList_noNl key (idx + 1) rest concatenator hk hc hv.2 x h

end

mutual

/-- Helper: the template attribute encoder produces newline-free output on
newline-free inputs. -/
def encode_attribute_value_noNl : ∀ (key : String) (value : AttrValue) (concatenator : String)
    (g l : Ctx) (s : String),
    '\n' ∉ key.data → '\n' ∉ concatenator.data → attrNlFree value = true →
    ctxNlFree g = true → ctxNlFree l = true →
    encode_attribute_value key value concatenator g l = .ok s → '\n' ∉ s.data
  | key, .vdict items, concatenator, g, l, s, hk, hc, hv, hg, hl, h => by
      rw [encode_attribute_value] at h
      cases hd : encodeAttrValueDict key items concatenator g l with
      | error e => rw [hd] at h; exact Except.noConfusion h
      | ok es =>
        rw [hd, except_bind_ok, except_pure_def] at h
        injection h with h
        rw [← h]
        refine pyStrip_noNl _ (joinSep_noNl " " (by decide) es ?_)
        exact encodeAttrValueDict_noNl key items concatenator g l es hk hc
          (by rw [attrNlFree] at hv; exact hv) hg hl hd
  | key, .vlist items, concatenator, g, l, s, hk, hc, hv, hg, hl, h => by
      rw [encode_attribute_value] at h
      cases hd : encodeAttrValueList key 0 items concatenator g l with
      | error e => rw [hd] at h; exact Except.noConfusion h
      | ok es =>
        rw [hd, except_bind_ok, except_pure_def] at h
        injection h with h
        rw [← h]
        refine pyStrip_noNl _ (joinSep_noNl " " (by decide) es ?_)
        exact encodeAttrValueList_noNl key 0 items concatenator g l es hk hc
          (by rw [attrNlFree] at hv; exact hv) hg hl hd
  | key, .vvar isG ckey dflt, concatenator, g, l, s, hk, hc, hv, hg, hl, h => by
      rw [encode_attribute_value] at h
      cases hgv : get_dict_subattribute (.vdict (if isG then g else l)) ckey dflt with
      | error e => rw [hgv] at h; exact Except.noConfusion h
      | ok v =>
        rw [hgv, except_bind_ok, except_pure_def] at h
        injection h with h
        rw [← h]
        refine encodeAttrPy_noNl key v concatenator hk hc ?_
        refine get_dict_subattribute_nlFree _ ckey dflt v ?_
          (by rw [attrNlFree] at hv; exact hv) hgv
        cases isG with
        | true =>
          simp only [if_true, ite_true]
          rw [pyNlFree]
          exact hg
        | false =>
          simp only [Bool.false_eq_true, if_false, ite_false]
          rw [pyNlFree]
          exact hl
  | key, .vbool b, concatenator, g, l, s, hk, hc, hv, hg, hl, h => by
      rw [encode_attribute_value, except_pure_def] at h
      injection h with h
      rw [← h]
      cases b
      · simp
      · simp only [if_true, ite_true]
        exact pyStrip_noNl key hk
  | key, .vstr s0, concatenator, g, l, s, hk, hc, hv, hg, hl, h => by
      rw [encode_attribute_value, except_pure_def] at h
      injection h with h
      rw [← h]
      exact encodeAttrPyOther_noNl key hk (.vstr s0)
        (by rw [pyNlFree]; rw [attrNlFree] at hv; exact hv)
  | key, .vint n, concatenator, g, l, s, hk, hc, hv, hg, hl, h => by
      rw [encode_attribute_value, except_pure_def] at h
      injection h with h
      rw [← h]
      exact encodeAttrPyOther_noNl key hk (.vint n) (by rw [pyNlFree])

/-- Helper: flattened template dict fragments are newline-free on newline-free
inputs. -/
def encodeAttrValueDict_noNl : ∀ (key : String) (items : List (String × AttrValue))
    (concatenator : String) (g l : Ctx) (es : List String),
    '\n' ∉ key.data → '\n' ∉ concatenator.data → attrNlFreeDict items = true →
    ctxNlFree g = true → ctxNlFree l = true →
    encodeAttrValueDict key items concatenator g l = .ok es → ∀ x ∈ es, '\n' ∉ x.data
  | key, [], concatenator, g, l, es, hk, hc, hv, hg, hl, h => by
      rw [encodeAttrValueDict, except_pure_def] at h
      injection h with h
      rw [← h]
      simp
  | key, (sk, sv) :: rest, concatenator, g, l, es, hk, hc, hv, hg, hl, h => by
      rw [encodeAttrValueDict] at h
      rw [attrNlFreeDict] at hv
      simp only [Bool.and_eq_true] at hv
      cases he : encode_attribute_value (key ++ concatenator ++ sk) sv concatenator g l with
      | error e => rw [he] at h; exact Except.noConfusion h
      | ok e0 =>
        rw [he, except_bind_ok] at h
        cases hr : encodeAttrValueDict key rest concatenator g l with
        | error e => rw [hr] at h; exact Except.noConfusion h
        | ok es0 =>
          rw [hr, except_bind_ok, except_pure_def] at h
          injection h with h
          rw [← h]
          intro x hx
          rcases List.mem_cons.mp hx with h1 | h1
          · rw [h1]
            exact encode_attribute_value_noNl (key ++ concatenator ++ sk) sv concatenator g l e0
              (append_noNl _ _ (append_noNl _ _ hk hc) (bnot_hasNl sk hv.1.1)) hc hv.1.2 hg hl he
          · exact encodeAttrValueDict_noNl key rest concatenator g l es0 hk hc hv.2 hg hl hr x h1

/-- Helper: flattened template list fragments are newline-free on newline-free
inputs. -/
def encodeAttrValueList_noNl : ∀ (key : String) (idx : Nat) (items : List AttrValue)
    (concatenator : String) (g l : Ctx) (es : List String),
    '\n' ∉ key.data → '\n' ∉ concatenator.data → attrNlFreeList items = true →
    ctxNlFree g = true → ctxNlFree l = true →
    encodeAttrValueList key idx items concatenator g l = .ok es → ∀ x ∈ es, '\n' ∉ x.data
  | key, idx, [], concatenator, g, l, es, hk, hc, hv, hg, hl, h => by
      rw [encodeAttrValueList, except_pure_def] at h
      injection h with h
      rw [← h]
      simp
  | key, idx, v :: rest, concatenator, g, l, es, hk, hc, hv, hg, hl, h => by
      rw [encodeAttrValueList] at h
      rw [attrNlFreeList] at hv
      simp only [Bool.and_eq_true] at hv
      cases he : encode_attribute_value (key ++ concatenator ++ pyIntRepr (Int.ofNat idx)) v concatenator g l with
      | error e => rw [he] at h; exact Except.noConfusion h
      | ok e0 =>
        rw [he, except_bind_ok] at h
        cases hr : encodeAttrValueList key (idx + 1) rest concatenator g l with
        | error e => rw [hr] at h; exact Except.noConfusion h
        | ok es0 =>
          rw [hr, except_bind_ok, except_pure_def] at h
          injection h with h
          rw [← h]
          intro x hx
          rcases List.mem_cons.mp hx with h1 | h1
          · rw [h1]
            exact encode_attribute_value_noNl (key ++ concatenator ++ pyIntRepr (Int.ofNat idx))
              v concatenator g l e0
              (append_noNl _ _ (append_noNl _ _ hk hc) (pyIntRepr_noNl _)) hc hv.1 hg hl he
          · exact encodeAttrValueList_noNl key (idx + 1) rest concatenator g l es0 hk hc hv.2 hg hl hr x h1

end

/-- Helper: the fragments produced by the attribute-entry loop are
newline-free on newline-free inputs. -/
theorem encodeTagAttrsAux_noNl (entries : List (String × AttrValue)) :
    ∀ (pfx concatenator : String) (g l : Ctx) (isd : Bool) (fragments : List String),
      '\n' ∉ pfx.data → '\n' ∉ concatenator.data → attrNlFreeDict entries = true →
      ctxNlFree g = true → ctxNlFree l = true →
      encodeTagAttrsAux entries pfx concatenator g l isd = .ok fragments →
      ∀ x ∈ fragments, '\n' ∉ x.data := by
  induction entries with
  | nil =>
    intro pfx concatenator g l isd fragments hp hc hv hg hl h
    rw [encodeTagAttrsAux, except_pure_def] at h
    injection h with h
    rw [← h]
    simp
  | cons kv rest ih =>
    obtain ⟨key, value⟩ := kv
    intro pfx concatenator g l isd fragments hp hc hv hg hl h
    rw [attrNlFreeDict] at hv
    simp only [Bool.and_eq_true] at hv
    rw [encodeTagAttrsAux] at h
    by_cases hhy : hasHyphen key = true
    · rw [hhy] at h
      simp only [if_true, ite_true] at h
      exact Except.noConfusion h
    · rw [Bool.not_eq_true] at hhy
      rw [hhy] at h
      simp only [Bool.false_eq_true, if_false, ite_false] at h
      have hks : '\n' ∉ (if isd
          then "data-" ++ (if pfx ≠ "" then pfx ++ concatenator ++ encode_attribute_key key
            else encode_attribute_key key)
          else (if pfx ≠ "" then pfx ++ concatenator ++ encode_attribute_key key
            else encode_attribute_key key)).data := by
        have hbase : '\n' ∉ ((if pfx ≠ "" then pfx ++ concatenator ++ encode_attribute_key key
            else encode_attribute_key key) : String).data := by
          by_cases hpf : pfx ≠ ""
          · rw [if_pos hpf]
            exact append_noNl _ _ (append_noNl _ _ hp hc)
              (encode_attribute_key_noNl key (bnot_hasNl key hv.1.1))
          · rw [if_neg hpf]
            exact encode_attribute_key_noNl key (bnot_hasNl key hv.1.1)
        cases isd with
        | true =>
          simp only [if_true, ite_true]
          exact append_noNl _ _ (by decide) hbase
        | false =>
          simp only [Bool.false_eq_true, if_false, ite_false]
          exact hbase
      cases he : encode_attribute_value
          (if isd
            then "data-" ++ (if pfx ≠ "" then pfx ++ concatenator ++ encode_attribute_key key
              else encode_attribute_key key)
            else (if pfx ≠ "" then pfx ++ concatenator ++ encode_attribute_key key
              else encode_attribute_key key))
          value concatenator g l with
      | error e =>
        rw [he] at h
        exact Except.noConfusion h
      | ok f0 =>
        rw [he, except_bind_ok] at h
        cases hr : encodeTagAttrsAux rest pfx concatenator g l isd with
        | error e => rw [hr] at h; exact Except.noConfusion h
        | ok fr =>
          rw [hr, except_bind_ok, except_pure_def] at h
          injection h with h
          rw [← h]
          intro x hx
          by_cases hf0 : pyStrip f0 = ""
          · rw [if_pos hf0] at hx
            exact ih pfx concatenator g l isd fr hp hc hv.2 hg hl hr x hx
          · rw [if_neg hf0] at hx
            rcases List.mem_cons.mp hx with h1 | h1
            · rw [h1]
              refine pyStrip_noNl _ ?_
              exact encode_attribute_value_noNl _ value concatenator g l f0 hks hc hv.1.2 hg hl he
            · exact ih pfx concatenator g l isd fr hp hc hv.2 hg hl hr x h1

/-- Helper: the attribute encoder's final output is newline-free on
newline-free inputs. -/
theorem encode_tag_attributes_noNl (data : List (String × AttrValue)) (pfx concatenator : String)
    (g l : Ctx) (isd : Bool) (s : String)
    (hp : '\n' ∉ pfx.data) (hc : '\n' ∉ concatenator.data) (hv : attrNlFreeDict data = true)
    (hg : ctxNlFree g = true) (hl : ctxNlFree l = true)
    (h : encode_tag_attributes data pfx concatenator g l isd = .ok s) : '\n' ∉ s.data := by
  rw [encode_tag_attributes] at h
  cases hf : encodeTagAttrsAux data pfx concatenator g l isd with
  | error e => rw [hf] at h; exact Except.noConfusion h
  | ok fragments =>
    rw [hf, except_bind_ok, except_pure_def] at h
    injection h with h
    rw [← h]
    exact joinSep_noNl " " (by decide) fragments
      (encodeTagAttrsAux_noNl data pfx concatenator g l isd fragments hp hc hv hg hl hf)

/-- Helper: the assembled self-closing tag line is newline-free when its parts
are. -/
theorem tagLine_self_noNl (nm a d : String)
    (hnm : '\n' ∉ nm.data) (ha : '\n' ∉ a.data) (hd : '\n' ∉ d.data) :
    '\n' ∉ (("" : String) ++ "<" ++ nm ++ a ++ d ++ "/>").data := by
  refine append_noNl _ _ ?_ (by decide)
  refine append_noNl _ _ ?_ hd
  refine append_noNl _ _ ?_ ha
  refine append_noNl _ _ ?_ hnm
  decide

/-- Helper: the assembled open-content-close tag string is newline-free when
its parts are. -/
theorem tagLine_open_noNl (nm a d content : String)
    (hnm : '\n' ∉ nm.data) (ha : '\n' ∉ a.data) (hd : '\n' ∉ d.data)
    (hcontent : '\n' ∉ content.data) :
    '\n' ∉ (("" : String) ++ "<" ++ nm ++ a ++ d ++ ">" ++ content ++ "" ++ "</" ++ nm ++ ">").data := by
  refine append_noNl _ _ ?_ (by decide)
  refine append_noNl _ _ ?_ hnm
  refine append_noNl _ _ ?_ (by decide)
  refine append_noNl _ _ ?_ (by decide)
  refine append_noNl _ _ ?_ hcontent
  refine append_noNl _ _ ?_ (by decide)
  refine append_noNl _ _ ?_ hd
  refine append_noNl _ _ ?_ ha
  refine append_noNl _ _ ?_ hnm
  decide

/-- Helper: under whitespace-sensitivity the tag wrapper emits a newline-free
string whenever its name, attribute dicts, contexts and inner content are
newline-free. -/
theorem renderTagWrap_noNl (nm : String) (sc esc : Bool) (attrs dat : List (String × AttrValue))
    (g l : Ctx) (i : Nat) (hcb : Bool) (inner : String) (s : String)
    (hnm : '\n' ∉ nm.data) (hattrs : attrNlFreeDict attrs = true) (hdat : attrNlFreeDict dat = true)
    (hg : ctxNlFree g = true) (hl : ctxNlFree l = true) (hinner : '\n' ∉ inner.data)
    (h : renderTagWrap nm sc esc attrs dat g l i true hcb inner = .ok s) : '\n' ∉ s.data := by
  rw [renderTagWrap] at h
  simp only [eq_self_iff_true, if_true, ite_true] at h
  have hcontent : '\n' ∉ ((if esc
      then escape_html_text (if hcb then "" ++ inner ++ "" else "")
      else (if hcb then "" ++ inner ++ "" else "")) : String).data := by
    have hbase : '\n' ∉ ((if hcb then "" ++ inner ++ "" else "") : String).data := by
      cases hcb with
      | true =>
        simp only [if_true, ite_true]
        exact append_noNl _ _ (append_noNl _ _ (by decide) hinner) (by decide)
      | false => simp only [Bool.false_eq_true, if_false, ite_false]; simp
    cases esc with
    | true =>
      simp only [if_true, ite_true]
      exact escape_html_text_noNl _ hbase
    | false => simp only [Bool.false_eq_true, if_false, ite_false]; exact hbase
  cases hae : attrs.isEmpty with
  | true =>
    rw [hae] at h
    simp only [if_true, ite_true, except_pure_def, except_bind_ok] at h
    cases hde : dat.isEmpty with
    | true =>
      rw [hde] at h
      simp only [if_true, ite_true, except_pure_def, except_bind_ok] at h
      cases sc with
      | true =>
        simp only [if_true, ite_true, except_pure_def] at h
        injection h with h
        rw [← h]
        exact tagLine_self_noNl nm "" "" hnm (by decide) (by decide)
      | false =>
        simp only [Bool.false_eq_true, if_false, ite_false, except_pure_def] at h
        injection h with h
        rw [← h]
        exact tagLine_open_noNl nm "" "" _ hnm (by decide) (by decide) hcontent
    | false =>
      rw [hde] at h
      simp only [Bool.false_eq_true, if_false, ite_false] at h
      cases hed : encode_tag_attributes dat "" "." g l true with
      | error e => rw [hed] at h; exact Except.noConfusion h
      | ok ds =>
        rw [hed] at h
        simp only [except_pure_def, except_bind_ok] at h
        have hdns : '\n' ∉ (" " ++ ds).data :=
          append_noNl _ _ (by decide)
            (encode_tag_attributes_noNl dat "" "." g l true ds (by decide) (by decide) hdat hg hl hed)
        cases sc with
        | true =>
          simp only [if_true, ite_true, except_pure_def] at h
          injection h with h
          rw [← h]
          exact tagLine_self_noNl nm "" (" " ++ ds) hnm (by decide) hdns
        | false =>
          simp only [Bool.false_eq_true, if_false, ite_false, except_pure_def] at h
          injection h with h
          rw [← h]
          exact tagLine_open_noNl nm "" (" " ++ ds) _ hnm (by decide) hdns hcontent
  | false =>
    rw [hae] at h
    simp only [Bool.false_eq_true, if_false, ite_false] at h
    cases hea : encode_tag_attributes attrs "" "." g l false with
    | error e => rw [hea] at h; exact Except.noConfusion h
    | ok as0 =>
      rw [hea] at h
      simp only [except_pure_def, except_bind_ok] at h
      have hans : '\n' ∉ (" " ++ as0).data :=
        append_noNl _ _ (by decide)
          (encode_tag_attributes_noNl attrs "" "." g l false as0 (by decide) (by decide) hattrs hg hl hea)
      cases hde : dat.isEmpty with
      | true =>
        rw [hde] at h
        simp only [if_true, ite_true, except_pure_def, except_bind_ok] at h
        cases sc with
        | true =>
          simp only [if_true, ite_true, except_pure_def] at h
          injection h with h
          rw [← h]
          exact tagLine_self_noNl nm (" " ++ as0) "" hnm hans (by decide)
        | false =>
          simp only [Bool.false_eq_true, if_false, ite_false, except_pure_def] at h
          injection h with h
          rw [← h]
          exact tagLine_open_noNl nm (" " ++ as0) "" _ hnm hans (by decide) hcontent
      | false =>
        rw [hde] at h
        simp only [Bool.false_eq_true, if_false, ite_false] at h
        cases hed : encode_tag_attributes dat "" "." g l true with
        | error e => rw [hed] at h; exact Except.noConfusion h
        | ok ds =>
          rw [hed] at h
          simp only [except_pure_def, except_bind_ok] at h
          have hdns : '\n' ∉ (" " ++ ds).data :=
            append_noNl _ _ (by decide)
              (encode_tag_attributes_noNl dat "" "." g l true ds (by decide) (by decide) hdat hg hl hed)
          cases sc with
          | true =>
            simp only [if_true, ite_true, except_pure_def] at h
            injection h with h
            rw [← h]
            exact tagLine_self_noNl nm (" " ++ as0) (" " ++ ds) hnm hans hdns
          | false =>
            simp only [Bool.false_eq_true, if_false, ite_false, except_pure_def] at h
            injection h with h
            rw [← h]
            exact tagLine_open_noNl nm (" " ++ as0) (" " ++ ds) _ hnm hans hdns hcontent

/-- Helper: the Raw concatenation loop yields a newline-free string when the
code list and the contexts are newline-free. -/
theorem rawConcat_noNl (code : List RawItem) :
    ∀ (g l : Ctx) (s : String), rawItemsNlFree code = true →
      ctxNlFree g = true → ctxNlFree l = true →
      rawConcat code g l = .ok s → '\n' ∉ s.data := by
  induction code with
  | nil =>
    intro g l s hv hg hl h
    rw [rawConcat, except_pure_def] at h
    injection h with h
    rw [← h]
    simp
  | cons it rest ih =>
    cases it with
    | rtext s0 =>
      intro g l s hv hg hl h
      rw [rawConcat] at h
      rw [rawItemsNlFree] at hv
      simp only [Bool.and_eq_true] at hv
      cases hr : rawConcat rest g l with
      | error e => rw [hr] at h; exact Except.noConfusion h
      | ok r =>
        rw [hr, except_bind_ok, except_pure_def] at h
        injection h with h
        rw [← h]
        exact append_noNl _ _ (bnot_hasNl s0 hv.1) (ih g l r hv.2 hg hl hr)
    | rvar isG k dflt =>
      intro g l s hv hg hl h
      rw [rawConcat] at h
      rw [rawItemsNlFree] at hv
      simp only [Bool.and_eq_true] at hv
      cases hgv : get_dict_subattribute (.vdict (if isG then g else l)) k dflt with
      | error e => rw [hgv] at h; exact Except.noConfusion h
      | ok v =>
        rw [hgv, except_bind_ok] at h
        cases v with
        | vstr s1 =>
          cases hr : rawConcat rest g l with
          | error e => rw [hr] at h; exact Except.noConfusion h
          | ok r =>
            rw [hr] at h
            injection h with h
            rw [← h]
            have hv1 : pyNlFree (.vstr s1) = true := by
              refine get_dict_subattribute_nlFree _ k dflt _ ?_ hv.1 hgv
              cases isG with
              | true => simp only [if_true, ite_true]; rw [pyNlFree]; exact hg
              | false => simp only [Bool.false_eq_true, if_false, ite_false]; rw [pyNlFree]; exact hl
            rw [pyNlFree] at hv1
            exact append_noNl _ _ (bnot_hasNl s1 hv1) (ih g l r hv.2 hg hl hr)
        | vnone => exact Except.noConfusion h
        | vbool b => exact Except.noConfusion h
        | vint n => exact Except.noConfusion h
        | vlist xs => exact Except.noConfusion h
        | vdict d => exact Except.noConfusion h

set_option maxHeartbeats 2000000 in
mutual

/-- Helper: under whitespace-sensitivity an element whose embedded strings and
contexts are newline-free renders to a newline-free string: no newline is
ever inserted in a whitespace-sensitive subtree. -/
def render_noNl : ∀ (e : Element) (g l : Ctx) (i : Nat) (s : String),
    elemNlFree e = true → ctxNlFree g = true → ctxNlFree l = true →
    Element.render e g l i true = .ok s → '\n' ∉ s.data
  | .mk cn ov .normal sc esc wss attrs dat children, g, l, i, s, hv, hg, hl, h => by
      have hv : (!hasNl (elementName cn ov) && attrNlFreeDict attrs && attrNlFreeDict dat
          && true && itemsNlFree children) = true := hv
      simp only [Bool.and_true, Bool.and_eq_true] at hv
      rw [Element.render] at h
      cases hch : children.isEmpty with
      | true =>
        rw [hch] at h
        simp only [if_true, ite_true, except_pure_def, except_bind_ok] at h
        refine renderTagWrap_noNl (elementName cn ov) sc esc attrs dat g l i (!true) "" s
          (bnot_hasNl _ hv.1.1.1) hv.1.1.2 hv.1.2 hg hl (by simp) h
      | false =>
        rw [hch] at h
        simp only [Bool.false_eq_true, if_false, ite_false] at h
        rw [show (true || wss) = true from rfl] at h
        cases hin : renderListHead children g l (i + INDENT) true with
        | error e => rw [hin] at h; exact Except.noConfusion h
        | ok inner =>
          rw [hin, except_bind_ok] at h
          refine renderTagWrap_noNl (elementName cn ov) sc esc attrs dat g l i (!false) inner s
            (bnot_hasNl _ hv.1.1.1) hv.1.1.2 hv.1.2 hg hl ?_ h
          exact renderListHead_noNl children g l (i + INDENT) inner hv.2 hg hl hin
  | .mk cn ov .page sc esc wss attrs dat children, g, l, i, s, hv, hg, hl, h => by
      have hv : (!hasNl (elementName cn ov) && attrNlFreeDict attrs && attrNlFreeDict dat
          && false && itemsNlFree children) = true := hv
      simp at hv
  | .mk cn ov (.jsond payload) sc esc wss attrs dat ch, g, l, i, s, hv, hg, hl, h => by
      have hv : (!hasNl (elementName cn ov) && attrNlFreeDict attrs && attrNlFreeDict dat
          && true && itemsNlFree ch) = true := hv
      simp only [Bool.and_true, Bool.and_eq_true] at hv
      rw [Element.render] at h
      refine renderTagWrap_noNl (elementName cn ov) sc esc attrs dat g l i true
        (renderStringItem (jsonDumps payload) (i + INDENT) (true || wss)) s
        (bnot_hasNl _ hv.1.1.1) hv.1.1.2 hv.1.2 hg hl ?_ h
      exact jsonDumps_noNl payload
  | .mk cn ov (.raw code) sc esc wss attrs dat ch, g, l, i, s, hv, hg, hl, h => by
      have hv : (!hasNl (elementName cn ov) && attrNlFreeDict attrs && attrNlFreeDict dat
          && rawItemsNlFree code && itemsNlFree ch) = true := hv
      simp only [Bool.and_eq_true] at hv
      rw [Element.render] at h
      cases hrc : rawConcat code g l with
      | error e => rw [hrc] at h; exact Except.noConfusion h
      | ok r =>
        rw [hrc, except_bind_ok, except_pure_def] at h
        injection h with h
        rw [← h]
        have hr : '\n' ∉ r.data := rawConcat_noNl code g l r hv.1.2 hg hl hrc
        cases esc with
        | true =>
          simp only [if_true, ite_true]
          exact escape_html_text_noNl r hr
        | false =>
          simp only [Bool.false_eq_true, if_false, ite_false]
          exact hr

/-- Helper: under whitespace-sensitivity a newline-free item renders to a
newline-free string. -/
def renderItem_noNl : ∀ (it : Item) (g l : Ctx) (i : Nat) (s : String),
    itemNlFree it = true → ctxNlFree g = true → ctxNlFree l = true →
    renderItem it g l i true = .ok s → '\n' ∉ s.data
  | .elem e, g, l, i, s, hv, hg, hl, h =>
      render_noNl e g l i s (by rw [itemNlFree] at hv; exact hv) hg hl h
  | .text s0, g, l, i, s, hv, hg, hl, h => by
      rw [renderItem, except_pure_def] at h
      injection h with h
      rw [← h]
      rw [itemNlFree] at hv
      exact bnot_hasNl s0 hv
  | .seq xs, g, l, i, s, hv, hg, hl, h =>
      renderListHead_noNl xs g l i s (by rw [itemNlFree] at hv; exact hv) hg hl h
  | .var isG k dflt, g, l, i, s, hv, hg, hl, h => by
      rw [renderItem] at h
      cases hgv : get_dict_subattribute (.vdict (if isG then g else l)) k dflt with
      | error e => rw [hgv] at h; exact Except.noConfusion h
      | ok v =>
        rw [hgv, except_bind_ok, except_pure_def] at h
        injection h with h
        rw [← h]
        refine renderResolved_noNl v i ?_
        refine get_dict_subattribute_nlFree _ k dflt v ?_ (by rw [itemNlFree] at hv; exact hv) hgv
        cases isG with
        | true => simp only [if_true, ite_true]; rw [pyNlFree]; exact hg
        | false => simp only [Bool.false_eq_true, if_false, ite_false]; rw [pyNlFree]; exact hl

/-- Helper: under whitespace-sensitivity a newline-free item list renders,
first position, to a newline-free string. -/
def renderListHead_noNl : ∀ (xs : List Item) (g l : Ctx) (i : Nat) (s : String),
    itemsNlFree xs = true → ctxNlFree g = true → ctxNlFree l = true →
    renderListHead xs g l i true = .ok s → '\n' ∉ s.data
  | [], g, l, i, s, hv, hg, hl, h => by
      rw [renderListHead, except_pure_def] at h
      injection h with h
      rw [← h]
      simp
  | x :: xs, g, l, i, s, hv, hg, hl, h => by
      rw [renderListHead] at h
      rw [itemsNlFree] at hv
      simp only [Bool.and_eq_true] at hv
      cases hx : renderItem x g l i true with
      | error e => rw [hx] at h; exact Except.noConfusion h
      | ok s0 =>
        rw [hx, except_bind_ok] at h
        cases hrest : renderListTail xs g l i true with
        | error e => rw [hrest] at h; exact Except.noConfusion h
        | ok r =>
          rw [hrest, except_bind_ok, except_pure_def] at h
          injection h with h
          rw [← h]
          exact append_noNl _ _ (renderItem_noNl x g l i s0 hv.1 hg hl hx)
            (renderListTail_noNl xs g l i r hv.2 hg hl hrest)

/-- Helper: under whitespace-sensitivity a newline-free item list renders,
later positions, with no separators and no newlines. -/
def renderListTail_noNl : ∀ (xs : List Item) (g l : Ctx) (i : Nat) (s : String),
    itemsNlFree xs = true → ctxNlFree g = true → ctxNlFree l = true →
    renderListTail xs g l i true = .ok s → '\n' ∉ s.data
  | [], g, l, i, s, hv, hg, hl, h => by
      rw [renderListTail, except_pure_def] at h
      injection h with h
      rw [← h]
      simp
  | x :: xs, g, l, i, s, hv, hg, hl, h => by
      rw [renderListTail] at h
      rw [itemsNlFree] at hv
      simp only [Bool.and_eq_true] at hv
      cases hx : renderItem x g l i true with
      | error e => rw [hx] at h; exact Except.noConfusion h
      | ok s0 =>
        rw [hx, except_bind_ok] at h
        cases hrest : renderListTail xs g l i true with
        | error e => rw [hrest] at h; exact Except.noConfusion h
        | ok r =>
          rw [hrest, except_bind_ok, except_pure_def] at h
          injection h with h
          rw [← h]
          rw [show (if (true : Bool) then ("" : String) else "\n") = "" from rfl]
          refine append_noNl _ _ (append_noNl _ _ (by simp) ?_) ?_
          · exact renderItem_noNl x g l i s0 hv.1 hg hl hx
          · exact renderListTail_noNl xs g l i r hv.2 hg hl hrest

end

/-- Claim C2, amended: once rendering proceeds with the whitespace-sensitivity
parameter on — which happens for the children and all deeper descendants of
a node marked whitespace_sensitive, regardless of the descendants' own flags
— no indentation is applied anywhere in that subtree (the output is
independent of the indent argument, first conjunct) and no newline is ever
inserted (for newline-free element strings and contexts the output is
newline-free, second conjunct); the sensitivity parameter only ever turns on
going down the tree, never off.  The marked node's own tag indentation and
the newlines wrapping its child block are however governed by the parameter
passed by its parent, not by its own flag (third conjunct; see the
counterexample). -/
theorem whitespace_sensitivity_inheritance :
    (∀ (e : Element) (g l : Ctx) (i j : Nat),
      Element.render e g l i true = Element.render e g l j true)
  ∧ (∀ (e : Element) (g l : Ctx) (i : Nat) (s : String),
      elemNlFree e = true → ctxNlFree g = true → ctxNlFree l = true →
      Element.render e g l i true = .ok s → hasNl s = false)
  ∧ (∀ (cn : String) (ov : Option String) (sc esc : Bool)
      (attrs dat : List (String × AttrValue)) (ch : List Item)
      (g l : Ctx) (i : Nat) (ws : Bool),
      ch.isEmpty = false →
      Element.render (.mk cn ov .normal sc esc true attrs dat ch) g l i ws
        = renderListHead ch g l (i + INDENT) true >>= fun inner =>
            renderTagWrap (elementName cn ov) sc esc attrs dat g l i ws true inner) := by
  refine ⟨render_indep, ?_, ?_⟩
  · intro e g l i s hv hg hl h
    rw [hasNl_false_iff]
    exact render_noNl e g l i s hv hg hl h
  · intro cn ov sc esc attrs dat ch g l i ws hch
    rw [Element.render, hch]
    simp only [Bool.false_eq_true, if_false, ite_false, Bool.or_true, Bool.not_false]

/-- Claim C2, amended, witness: the sensitively rendered span is independent
of the indent, its output has no newline, and the marked span's children are
rendered sensitively even when the parameter arrives false. -/
theorem whitespace_sensitivity_inheritance_witness :
    Element.render spanSensitive [] [] 3 true = Element.render spanSensitive [] [] 7 true
  ∧ hasNl "<span>a</span>" = false
  ∧ Element.render (.mk "tagSPAN" none .normal false false true [] [] [.text "a"]) [] [] 4 false
      = renderListHead [.text "a"] [] [] (4 + INDENT) true >>= fun inner =>
          renderTagWrap (elementName "tagSPAN" none) false false [] [] [] [] 4 false true inner := by
  refine ⟨whitespace_sensitivity_inheritance.1 spanSensitive [] [] 3 7, ?_, ?_⟩
  · exact whitespace_sensitivity_inheritance.2.1 spanSensitive [] [] 5 "<span>a</span>"
      rfl rfl rfl rfl
  · exact whitespace_sensitivity_inheritance.2.2 "tagSPAN" none false false [] [] [.text "a"]
      [] [] 4 false rfl
